import Mathlib

/-!
Verification of the complott build orchestrator (src/complott/complott.py)
against its natural-language specification.

The Python source is shallowly embedded: pure fragments become Lean
functions, the filesystem becomes an explicit tree value, exogenous
effects (the docker container run, the network) become explicit inputs,
and code that can raise returns Option/Except.  Python standard-library
routines the source calls (filecmp.dircmp, graphlib.TopologicalSorter,
urllib.parse) are embedded following their CPython 3.11 implementations.

All strings are treated at the level of Unicode code points (Lean Char);
the embedding of urllib restricts network locations to ASCII (CPython
additionally applies NFKC checks and full-Unicode lowercasing there,
which coincide with this model on ASCII input).
-/

namespace Complott

/-! ## Generic list/string helpers -/

/-- Association-list lookup by key (first occurrence), like indexing a
Python dict built without duplicate keys. -/
def alistLookup {α : Type} (l : List (String × α)) (k : String) : Option α :=
  match l with
  | [] => none
  | (k', v) :: rest => if k' = k then some v else alistLookup rest k

/-- Membership of a key in an association list (Python `in` on a dict). -/
def alistHasKey {α : Type} (l : List (String × α)) (k : String) : Bool :=
  match l with
  | [] => false
  | (k', _) :: rest => k' = k || alistHasKey rest k

/-- Python dict insertion: replace in place if the key exists (keeping its
position), otherwise append at the end. -/
def dictInsert {α : Type} (l : List (String × α)) (k : String) (v : α) :
    List (String × α) :=
  match l with
  | [] => [(k, v)]
  | (k', v') :: rest =>
      if k' = k then (k, v) :: rest else (k', v') :: dictInsert rest k v

/-! ## Filesystem trees and the filecmp model

A directory entry is either a regular file (its bytes and its mtime, the
two stat components `filecmp.cmp` looks at beyond the file type) or a
subdirectory.  Directories are listings: lists of named entries. -/

inductive FsEntry : Type
  | file (content : List Nat) (mtime : Nat)
  | dir (entries : List (String × FsEntry))
  deriving Repr

abbrev FsDir := List (String × FsEntry)

/-- Names filtered out of every directory listing by filecmp.dircmp
(`filecmp.DEFAULT_IGNORES`; the `hide` list `['.', '..']` never occurs in a
listing and is omitted). -/
def defaultIgnores : List String :=
  ["RCS", "CVS", "tags", ".git", ".hg", ".bzr", "_darcs", "__pycache__"]

def ignoredName (n : String) : Bool := defaultIgnores.contains n

/-- The comparison performed by `filecmp.cmp(f1, f2, shallow=True)` on two
regular files.  CPython: equal if the stat signatures (size, mtime) agree;
otherwise unequal if the sizes differ; otherwise compare the bytes.  Since
equal bytes have equal sizes this reduces to the disjunction below. -/
def shallowCmp (c1 : List Nat) (m1 : Nat) (c2 : List Nat) (m2 : Nat) : Bool :=
  (c1.length = c2.length && m1 = m2) || c1 = c2

/-- Non-ignored names of a listing, in listing order
(dircmp's filtered `left_list` / `right_list`). -/
def listedNames (d : FsDir) : List String :=
  (d.map Prod.fst).filter (fun n => !ignoredName n)

/-- Does `dcmp.left_only` contain anything: some non-ignored name of the
left listing is absent from the right listing. -/
def dcmpLeftOnlyNonempty (s b : FsDir) : Bool :=
  (listedNames s).any (fun n => !(listedNames b).contains n)

/-- Does `dcmp.diff_files` contain anything: some non-ignored name is a
regular file in both listings and the shallow comparison rejects it. -/
def dcmpDiffFilesNonempty (s b : FsDir) : Bool :=
  (listedNames s).any (fun n =>
    match alistLookup s n, alistLookup b n with
    | some (.file c1 m1), some (.file c2 m2) => !shallowCmp c1 m1 c2 m2
    | _, _ => false)

mutual

/-- Embedding of `left_files_changed(dcmp)` from complott.py applied to the
dircmp of two directories: true when the left listing has a non-ignored
name missing on the right, or a common file differs under the shallow
comparison, or a common subdirectory (dircmp only recurses into names that
are directories on both sides) is itself changed. -/
def leftFilesChanged : FsEntry → FsEntry → Bool
  | .dir s, .dir b =>
      dcmpLeftOnlyNonempty s b || dcmpDiffFilesNonempty s b ||
        leftFilesChangedSubdirs s b
  | _, _ => false

/-- Recursion of `left_files_changed` over `dcmp.subdirs`: walk the left
entries; a non-ignored entry that is a directory on both sides is compared
recursively. -/
def leftFilesChangedSubdirs : List (String × FsEntry) → FsDir → Bool
  | [], _ => false
  | (n, e) :: rest, b =>
      (!ignoredName n && leftFilesChangedAt e (alistLookup b n)) ||
        leftFilesChangedSubdirs rest b

/-- One entry of the `dcmp.subdirs` walk: the left entry paired with the
right listing's entry of the same name; only a directory on both sides is
compared recursively. -/
def leftFilesChangedAt : FsEntry → Option FsEntry → Bool
  | .dir sd, some (.dir bd) => leftFilesChanged (.dir sd) (.dir bd)
  | _, _ => false

end

/-! ## The python recipe build step (PythonRecipe.build)

The docker container run is exogenous: its result is an input of the
model.  `shutil.copytree` (default `copy2`) preserves file bytes and
mtimes, so the copied tree is the source tree value itself.  The
container's only writable mount is `<build_path>/data` (the build tree is
bound read-only at /app/recipe and the dependency trees read-only under
/app/dependencies), so its write effect on the host is confined to the
`data` entry of the build tree; the entry it leaves there is a second
exogenous input of the model.  When the source ships its own `data/`,
those writes can alter files that the next run's change detection
compares against the source. -/

/-- Result of the sandbox container run (docker.containers.run): normal
completion, or docker.errors.ContainerError with the container's exit
status. -/
inductive SandboxResult : Type
  | ok
  | containerError (exitStatus : Nat)
  deriving DecidableEq, Repr

/-- Observable outcome of PythonRecipe.build for the scheduler: returned
after skipping an unchanged tree, returned after running the container, or
raised an exception. -/
inductive BuildOutcome : Type
  | skippedUnchanged
  | finished
  | raised
  deriving DecidableEq, Repr

/-- The `os.makedirs(data_path)` step: create the `data` subdirectory of
the freshly copied build tree when absent. -/
def ensureDataDir (t : FsDir) : FsDir :=
  if alistHasKey t "data" then t else t ++ [("data", .dir [])]

/-- The container's write effect on the host filesystem: its only
writable mount is `<build_path>/data`, so the run replaces the `data`
entry of the build tree with whatever the container leaves there (an
exogenous value), touching nothing else. -/
def writeData : FsDir → FsEntry → FsDir
  | [], _ => []
  | (n, e) :: rest, d =>
      if n = "data" then ("data", d) :: rest
      else (n, e) :: writeData rest d

/-- The copy-and-run phase of PythonRecipe.build: copy the source tree,
ensure `data/`, run the container, whose writes land in the `data` entry
(`dataAfter` is what it leaves there); ContainerError with exit status 1
or 137 is logged and re-raised, any other exit status falls through the
`match` statement and the exception is swallowed (build returns normally). -/
def pythonRecipeRunPhase (sourceTree : FsDir) (run : SandboxResult)
    (dataAfter : FsEntry) : Option FsDir × BuildOutcome :=
  let t := writeData (ensureDataDir sourceTree) dataAfter
  match run with
  | .ok => (some t, .finished)
  | .containerError 1 => (some t, .raised)
  | .containerError 137 => (some t, .raised)
  | .containerError _ => (some t, .finished)

/-- Embedding of `PythonRecipe.build`: given the recipe source tree, the
current build tree (none when `<build_path>` does not exist), the override
flag, the container result and the contents the container leaves in the
`data` mount, return the build tree left on disk and the outcome seen by
the scheduler. -/
def pythonRecipeBuild (sourceTree : FsDir) (buildTree : Option FsDir)
    (override : Bool) (run : SandboxResult) (dataAfter : FsEntry) :
    Option FsDir × BuildOutcome :=
  match buildTree with
  | some bt =>
      if !leftFilesChanged (.dir sourceTree) (.dir bt) && !override then
        (some bt, .skippedUnchanged)
      else
        pythonRecipeRunPhase sourceTree run dataAfter
  | none => pythonRecipeRunPhase sourceTree run dataAfter

/-! ## Well-formed trees and basic lemmas -/

/-- No name occurs twice in the list. -/
def distinctNames : List String → Bool
  | [] => true
  | n :: rest => !rest.contains n && distinctNames rest

mutual

/-- A tree is well formed when every directory listing in it has pairwise
distinct names, as real directory listings produced by os.listdir do. -/
def wfEntry : FsEntry → Bool
  | .file _ _ => true
  | .dir es => distinctNames (es.map Prod.fst) && wfList es

def wfList : List (String × FsEntry) → Bool
  | [] => true
  | (_, e) :: rest => wfEntry e && wfList rest

end

/-! ## Spec-side reading of the change detector (for claim C7) -/

/-- Descend both trees along a path of non-ignored directory names.  Used
to state the specification reading of the change detector declaratively:
a path selects a directory that the recursive dircmp walk actually
compares. -/
def dirAtPath : FsDir → List String → Option FsDir
  | t, [] => some t
  | t, c :: cs =>
      if ignoredName c then none
      else
        match alistLookup t c with
        | some (.dir d) => dirAtPath d cs
        | _ => none

/-- Specification-side definition of "changed", following the wording of
the (amended) claim: somewhere in the part of the two trees that the
recursive comparison visits (a chain of non-ignored names that are
directories in both trees), either a non-ignored name present in the
source directory is absent from the build directory, or a file present in
both differs under the shallow comparison. -/
def specChanged (src bld : FsDir) : Prop :=
  ∃ p sd bd, dirAtPath src p = some sd ∧ dirAtPath bld p = some bd ∧
    ((∃ n, ignoredName n = false ∧ alistHasKey sd n = true ∧
        alistHasKey bd n = false) ∨
     (∃ n c1 m1 c2 m2, ignoredName n = false ∧
        alistLookup sd n = some (.file c1 m1) ∧
        alistLookup bd n = some (.file c2 m2) ∧
        shallowCmp c1 m1 c2 m2 = false))

/-! ## urllib.parse: characters, UTF-8, percent-coding

Embedding of the parts of CPython 3.11 urllib.parse that `normalize_url`
uses.  Strings are handled as lists of code points; byte strings as lists
of Nat below 256. -/

def isAsciiChar (c : Char) : Bool := c.val < 128

def isAsciiDigitChar (c : Char) : Bool := 48 ≤ c.val && c.val ≤ 57

def isAsciiAlphaChar (c : Char) : Bool :=
  (65 ≤ c.val && c.val ≤ 90) || (97 ≤ c.val && c.val ≤ 122)

/-- ASCII lowercasing; Python str.lower restricted to ASCII (the model
only lowercases ASCII text: schemes are ASCII by construction and the
embedding rejects non-ASCII netlocs). -/
def asciiLowerChar (c : Char) : Char :=
  if 65 ≤ c.val && c.val ≤ 90 then Char.ofNat (c.toNat + 32) else c

def asciiLowerStr (s : String) : String := ⟨s.data.map asciiLowerChar⟩

def isHexDigitChar (c : Char) : Bool :=
  isAsciiDigitChar c || (65 ≤ c.val && c.val ≤ 70) || (97 ≤ c.val && c.val ≤ 102)

def hexDigitVal (c : Char) : Nat :=
  if isAsciiDigitChar c then c.toNat - 48
  else if 65 ≤ c.val && c.val ≤ 70 then c.toNat - 55
  else c.toNat - 87

def hexDigitUpper (n : Nat) : Char :=
  if n < 10 then Char.ofNat (48 + n) else Char.ofNat (55 + n)

/-- UTF-8 encoding of one code point (Lean Char excludes surrogates, as
does Python str). -/
def utf8EncodeChar (c : Char) : List Nat :=
  let n := c.toNat
  if n < 128 then [n]
  else if n < 2048 then [192 + n / 64, 128 + n % 64]
  else if n < 65536 then [224 + n / 4096, 128 + (n / 64) % 64, 128 + n % 64]
  else [240 + n / 262144, 128 + (n / 4096) % 64, 128 + (n / 64) % 64,
    128 + n % 64]

def utf8Encode (l : List Char) : List Nat := (l.map utf8EncodeChar).flatten

/-- Is b a byte in the given inclusive range. -/
def contIn (b lo hi : Nat) : Bool := lo ≤ b && b ≤ hi

/-- UTF-8 decoding with errors='replace' as CPython does it: each maximal
subpart of an ill-formed sequence becomes one U+FFFD. -/
def utf8DecodeReplace : List Nat → List Char
  | [] => []
  | b :: rest =>
    if b < 128 then Char.ofNat b :: utf8DecodeReplace rest
    else if 194 ≤ b && b ≤ 223 then
      match rest with
      | b1 :: rest2 =>
        if contIn b1 128 191 then
          Char.ofNat ((b - 192) * 64 + (b1 - 128)) :: utf8DecodeReplace rest2
        else Char.ofNat 65533 :: utf8DecodeReplace (b1 :: rest2)
      | [] => [Char.ofNat 65533]
    else if 224 ≤ b && b ≤ 239 then
      let lo1 := if b = 224 then 160 else 128
      let hi1 := if b = 237 then 159 else 191
      match rest with
      | b1 :: rest2 =>
        if contIn b1 lo1 hi1 then
          match rest2 with
          | b2 :: rest3 =>
            if contIn b2 128 191 then
              Char.ofNat ((b - 224) * 4096 + (b1 - 128) * 64 + (b2 - 128)) ::
                utf8DecodeReplace rest3
            else Char.ofNat 65533 :: utf8DecodeReplace (b2 :: rest3)
          | [] => [Char.ofNat 65533]
        else Char.ofNat 65533 :: utf8DecodeReplace (b1 :: rest2)
      | [] => [Char.ofNat 65533]
    else if 240 ≤ b && b ≤ 244 then
      let lo1 := if b = 240 then 144 else 128
      let hi1 := if b = 244 then 143 else 191
      match rest with
      | b1 :: rest2 =>
        if contIn b1 lo1 hi1 then
          match rest2 with
          | b2 :: rest3 =>
            if contIn b2 128 191 then
              match rest3 with
              | b3 :: rest4 =>
                if contIn b3 128 191 then
                  Char.ofNat ((b - 240) * 262144 + (b1 - 128) * 4096 +
                    (b2 - 128) * 64 + (b3 - 128)) :: utf8DecodeReplace rest4
                else Char.ofNat 65533 :: utf8DecodeReplace (b3 :: rest4)
              | [] => [Char.ofNat 65533]
            else Char.ofNat 65533 :: utf8DecodeReplace (b2 :: rest3)
          | [] => [Char.ofNat 65533]
        else Char.ofNat 65533 :: utf8DecodeReplace (b1 :: rest2)
      | [] => [Char.ofNat 65533]
    else Char.ofNat 65533 :: utf8DecodeReplace rest

/-- Python str.split(sep) keeping empty fields. -/
def splitOnChar (l : List Char) (sep : Char) : List (List Char) :=
  match l with
  | [] => [[]]
  | c :: rest =>
      let r := splitOnChar rest sep
      if c = sep then [] :: r
      else
        match r with
        | [] => [[c]]
        | hd :: tl => (c :: hd) :: tl

/-- urllib.parse.unquote_to_bytes on an ASCII segment: decode %XX hex
pairs into bytes, leave malformed escapes verbatim. -/
def unquoteToBytes (l : List Char) : List Nat :=
  match splitOnChar l '%' with
  | [] => []
  | first :: rest =>
      first.map Char.toNat ++
        (rest.map fun item =>
          match item with
          | h1 :: h2 :: tl =>
              if isHexDigitChar h1 && isHexDigitChar h2 then
                (hexDigitVal h1 * 16 + hexDigitVal h2) :: tl.map Char.toNat
              else 37 :: item.map Char.toNat
          | _ => 37 :: item.map Char.toNat).flatten

/-- Group a string into maximal runs of ASCII / non-ASCII characters,
tagged with whether the run is ASCII (urllib's _asciire split). -/
def asciiRuns : List Char → List (Bool × List Char)
  | [] => []
  | c :: rest =>
      match asciiRuns rest with
      | [] => [(isAsciiChar c, [c])]
      | (asc, run) :: tl =>
          if isAsciiChar c = asc then (asc, c :: run) :: tl
          else (isAsciiChar c, [c]) :: (asc, run) :: tl

/-- urllib.parse.unquote with encoding='utf-8', errors='replace': percent
escapes inside ASCII runs are decoded to bytes and UTF-8-decoded with
replacement; non-ASCII characters pass through unchanged. -/
def pyUnquote (s : String) : String :=
  if s.data.contains '%' = false then s
  else
    ⟨((asciiRuns s.data).map (fun r =>
        if r.1 then utf8DecodeReplace (unquoteToBytes r.2) else r.2)).flatten⟩

/-- urllib's _ALWAYS_SAFE set. -/
def alwaysSafe : List Char :=
  "ABCDEFGHIJKLMNOPQRSTUVWXYZabcdefghijklmnopqrstuvwxyz0123456789_.-~".data

/-- urllib.parse.quote over UTF-8 bytes with a safe set. -/
def pyQuote (s : String) (safe : List Char) : String :=
  ⟨((utf8Encode s.data).map (fun b =>
      if b < 128 && (alwaysSafe.contains (Char.ofNat b) ||
          safe.contains (Char.ofNat b)) then [Char.ofNat b]
      else ['%', hexDigitUpper (b / 16), hexDigitUpper (b % 16)])).flatten⟩

/-- urllib.parse.quote_plus with safe='': spaces become '+'. -/
def pyQuotePlus (s : String) : String :=
  if s.data.contains ' ' then
    ⟨(pyQuote s [' ']).data.map (fun c => if c = ' ' then '+' else c)⟩
  else pyQuote s []

/-- urllib.parse.parse_qsl with the defaults used by normalize_url: fields
without '=' or with an empty value are dropped, '+' means space, names and
values are percent-decoded. -/
def parseQsl (qs : String) : List (String × String) :=
  if qs = "" then []
  else
    (splitOnChar qs.data '&').filterMap fun field =>
      match splitOnChar field '=' with
      | name :: v1 :: vrest =>
          let value := (List.intersperse ['='] (v1 :: vrest)).flatten
          if value = [] then none
          else
            some
              (pyUnquote ⟨name.map (fun c => if c = '+' then ' ' else c)⟩,
               pyUnquote ⟨value.map (fun c => if c = '+' then ' ' else c)⟩)
      | _ => none

/-- Strict code-point lexicographic order on strings (Python str <). -/
def lexLtChars : List Char → List Char → Bool
  | [], [] => false
  | [], _ :: _ => true
  | _ :: _, [] => false
  | a :: as, b :: bs => if a.val < b.val then true
      else if a = b then lexLtChars as bs else false

/-- Python tuple < on (name, value) pairs of strings. -/
def pairLt (p q : String × String) : Bool :=
  if p.1 = q.1 then lexLtChars p.2.data q.2.data
  else lexLtChars p.1.data q.1.data

/-- Stable insertion into a sorted list: x goes after every element not
greater than it, which reproduces Python sorted's stability. -/
def sortedInsertPair (x : String × String) :
    List (String × String) → List (String × String)
  | [] => [x]
  | y :: ys => if pairLt x y then x :: y :: ys else y :: sortedInsertPair x ys

/-- Python sorted on a list of (string, string) pairs. -/
def pySortedPairs (l : List (String × String)) : List (String × String) :=
  l.foldl (fun acc x => sortedInsertPair x acc) []

/-- urllib.parse.urlencode with default quote_via=quote_plus on string
pairs. -/
def pyUrlencode (pairs : List (String × String)) : String :=
  ⟨(List.intersperse ['&']
      (pairs.map fun p =>
        (pyQuotePlus p.1).data ++ ['='] ++ (pyQuotePlus p.2).data)).flatten⟩

/-! ## urllib.parse: urlsplit / urlparse / hostname / port / unparse -/

/-- Split at the first occurrence of a character: (before, found, after). -/
def partitionChar (l : List Char) (c : Char) : List Char × Bool × List Char :=
  match List.findIdx? (fun x => x = c) l with
  | none => (l, false, [])
  | some i => (l.take i, true, l.drop (i + 1))

/-- Split at the last occurrence of a character: (before, found, after). -/
def rpartitionChar (l : List Char) (c : Char) : List Char × Bool × List Char :=
  match List.findIdx? (fun x => x = c) l.reverse with
  | none => (l, false, [])
  | some j =>
      let i := l.length - 1 - j
      (l.take i, true, l.drop (i + 1))

/-- Python str.find(c, start): first index ≥ start holding c. -/
def findIdxFrom (l : List Char) (c : Char) (start : Nat) : Option Nat :=
  match List.findIdx? (fun x => x = c) (l.drop start) with
  | none => none
  | some j => some (start + j)

def schemeChars : List Char :=
  "abcdefghijklmnopqrstuvwxyzABCDEFGHIJKLMNOPQRSTUVWXYZ0123456789+-.".data

def usesNetloc : List String :=
  ["", "ftp", "http", "gopher", "nntp", "telnet", "imap", "wais", "file",
   "mms", "https", "shttp", "snews", "prospero", "rtsp", "rtspu", "rsync",
   "svn", "svn+ssh", "sftp", "nfs", "git", "git+ssh", "ws", "wss"]

def usesParams : List String :=
  ["", "ftp", "hdl", "prospero", "http", "imap", "https", "shttp", "rtsp",
   "rtspu", "sip", "sips", "mms", "sftp", "tel"]

/-- Result of urllib.parse.urlsplit. -/
structure PySplitResult : Type where
  scheme : String
  netloc : String
  path : String
  query : String
  fragment : String
  deriving Repr, DecidableEq

/-- Result of urllib.parse.urlparse. -/
structure PyParseResult : Type where
  scheme : String
  netloc : String
  path : String
  params : String
  query : String
  fragment : String
  deriving Repr, DecidableEq

/-- The scheme-detection step of urlsplit: a leading ASCII letter followed
by scheme characters up to the first ':' is the (lowercased) scheme. -/
def schemeSplit (url0 : List Char) : List Char × List Char :=
  match List.findIdx? (fun c => c = ':') url0 with
  | none => ([], url0)
  | some i =>
      match url0 with
      | [] => ([], url0)
      | c0 :: _ =>
          if 0 < i && isAsciiAlphaChar c0 &&
              (url0.take i).all (fun c => schemeChars.contains c) then
            ((url0.take i).map asciiLowerChar, url0.drop (i + 1))
          else ([], url0)

/-- Embedding of CPython 3.11 urlsplit (with scheme='',
allow_fragments=True): tab/CR/LF removed, scheme detected and lowercased,
netloc taken after '//' up to the first of '/?#', then the fragment split
at the first '#', then the query at the first '?'.  none models a raised
ValueError; as a modelling boundary a netloc containing non-ASCII
characters is also mapped to none (CPython applies NFKC-based checks and
full-Unicode lowercasing there, which this embedding does not cover). -/
def pyUrlsplit (url : String) : Option PySplitResult :=
  let url0 := url.data.filter (fun c => !(c = '\t' || c = '\r' || c = '\n'))
  let sr := schemeSplit url0
  let scheme := sr.1
  let rest := sr.2
  let nsplit :=
    match rest with
    | '/' :: '/' :: after =>
        (match List.findIdx? (fun c => c = '/' || c = '?' || c = '#') after with
         | none => (after, ([] : List Char))
         | some d => (after.take d, after.drop d))
    | _ => ([], rest)
  let netloc := nsplit.1
  let rest2 := nsplit.2
  if (netloc.contains '[' && !netloc.contains ']') ||
      (netloc.contains ']' && !netloc.contains '[') then none
  else if !netloc.all isAsciiChar then none
  else
    let fsplit := partitionChar rest2 '#'
    let rest3 := fsplit.1
    let fragment := fsplit.2.2
    let qsplit := partitionChar rest3 '?'
    some ⟨⟨scheme⟩, ⟨netloc⟩, ⟨qsplit.1⟩, ⟨qsplit.2.2⟩, ⟨fragment⟩⟩

/-- urllib's _splitparams: split params off the last path segment. -/
def splitParams (p : List Char) : List Char × List Char :=
  if p.contains '/' then
    match rpartitionChar p '/' with
    | (before, _, _) =>
        match findIdxFrom p ';' before.length with
        | none => (p, [])
        | some i => (p.take i, p.drop (i + 1))
  else
    match List.findIdx? (fun x => x = ';') p with
    | none => (p, [])
    | some i => (p.take i, p.drop (i + 1))

/-- Embedding of CPython 3.11 urlparse: urlsplit plus the params split,
applied only for schemes in uses_params when the path contains ';'. -/
def pyUrlparse (url : String) : Option PyParseResult :=
  match pyUrlsplit url with
  | none => none
  | some sp =>
      if usesParams.contains sp.scheme && sp.path.data.contains ';' then
        let pr := splitParams sp.path.data
        some ⟨sp.scheme, sp.netloc, ⟨pr.1⟩, ⟨pr.2⟩, sp.query, sp.fragment⟩
      else
        some ⟨sp.scheme, sp.netloc, sp.path, "", sp.query, sp.fragment⟩

/-- urllib's _hostinfo: strip userinfo at the last '@', then split host
and port (with bracketed IPv6 handling).  Returns (hostname part, port
digits). -/
def hostinfoOf (netloc : List Char) : List Char × List Char :=
  let hostinfo := (rpartitionChar netloc '@').2.2
  let hostinfo := if netloc.contains '@' then hostinfo else netloc
  if hostinfo.contains '[' then
    let bracketed := (partitionChar hostinfo '[').2.2
    let hp := partitionChar bracketed ']'
    let port := (partitionChar hp.2.2 ':').2.2
    (hp.1, port)
  else
    let hp := partitionChar hostinfo ':'
    (hp.1, hp.2.2)

/-- The SplitResult.hostname property: empty gives None, otherwise the
host is lowercased leaving any IPv6 zone after '%' untouched. -/
def pyHostname (netloc : List Char) : Option String :=
  let hn := (hostinfoOf netloc).1
  if hn = [] then none
  else
    let z := partitionChar hn '%'
    some ⟨z.1.map asciiLowerChar ++ (if z.2.1 then '%' :: z.2.2 else [])⟩

/-- The SplitResult.port property: none of the result means no port; the
outer none models the ValueError raised on digits that are not ASCII
digits or a value above 65535. -/
def pyPort (netloc : List Char) : Option (Option Nat) :=
  let port := (hostinfoOf netloc).2
  if port = [] then some none
  else if port.all isAsciiDigitChar then
    let v := port.foldl (fun a c => a * 10 + (c.toNat - 48)) 0
    if v ≤ 65535 then some (some v) else none
  else none

/-- Does the character list start with two slashes (url[:2] == '//'). -/
def startsSlashSlash : List Char → Bool
  | '/' :: '/' :: _ => true
  | _ => false

/-- Does the character list start with a slash (url[:1] == '/'). -/
def startsSlash : List Char → Bool
  | '/' :: _ => true
  | _ => false

/-- CPython 3.11 urlunsplit. -/
def pyUrlunsplit (scheme netloc url query fragment : String) : String :=
  let url :=
    if netloc ≠ "" ∨ (scheme ≠ "" ∧ usesNetloc.contains scheme ∧
        !startsSlashSlash url.data) then
      let url2 := if url ≠ "" ∧ !startsSlash url.data then "/" ++ url else url
      "//" ++ netloc ++ url2
    else url
  let url := if scheme ≠ "" then scheme ++ ":" ++ url else url
  let url := if query ≠ "" then url ++ "?" ++ query else url
  if fragment ≠ "" then url ++ "#" ++ fragment else url

/-- CPython 3.11 urlunparse. -/
def pyUrlunparse (scheme netloc url params query fragment : String) : String :=
  pyUrlunsplit scheme netloc
    (if params ≠ "" then url ++ ";" ++ params else url) query fragment

/-! ## normalize_url (complott.py lines 208-217) -/

/-- The netloc built by normalize_url from the parsed hostname and port:
the lowercased host, plus the port exactly when it is truthy (non-None and
non-zero) and not in (80, 443). -/
def normalizeNetloc (hostname : Option String) (port : Option Nat) : String :=
  let netloc := match hostname with
    | some h => asciiLowerStr h
    | none => ""
  match port with
  | some p =>
      if p ≠ 0 ∧ p ≠ 80 ∧ p ≠ 443 then netloc ++ ":" ++ toString p else netloc
  | none => netloc

/-- Python str.rstrip("/"): drop every trailing slash. -/
def rstripSlash (s : String) : String :=
  ⟨(s.data.reverse.dropWhile (fun c => c = '/')).reverse⟩

/-- Embedding of normalize_url: parse, rebuild the netloc from hostname
and port, strip trailing slashes from the path, re-encode the sorted query
pairs, drop the fragment, and unparse.  none models a raised exception
(invalid port, unbalanced IPv6 brackets — or netloc outside the ASCII
modelling boundary). -/
def normalizeUrl (url : String) : Option String := do
  let parsed ← pyUrlparse url
  let port ← pyPort parsed.netloc.data
  let netloc := normalizeNetloc (pyHostname parsed.netloc.data) port
  let path := rstripSlash parsed.path
  let query := pyUrlencode (pySortedPairs (parseQsl parsed.query))
  return pyUrlunparse (asciiLowerStr parsed.scheme) netloc path parsed.params
    query ""

/-! ## SHA-1 (hashlib.sha1), the Fetch artifact and fetch registration -/

def pow32 : Nat := 4294967296

def add32 (a b : Nat) : Nat := (a + b) % pow32

def rotl32 (x s : Nat) : Nat :=
  (((x <<< s) % pow32) ||| (x >>> (32 - s)))

def sha1K (i : Nat) : Nat :=
  if i < 20 then 1518500249
  else if i < 40 then 1859775393
  else if i < 60 then 2400959708
  else 3395469782

def sha1F (i b c d : Nat) : Nat :=
  if i < 20 then (b &&& c) ||| ((4294967295 ^^^ b) &&& d)
  else if i < 40 then b ^^^ c ^^^ d
  else if i < 60 then (b &&& c) ||| (b &&& d) ||| (c &&& d)
  else b ^^^ c ^^^ d

/-- The 8-byte big-endian encoding of the message bit length. -/
def sha1LenBytes (n : Nat) : List Nat :=
  [n / 72057594037927936 % 256, n / 281474976710656 % 256,
   n / 1099511627776 % 256, n / 4294967296 % 256, n / 16777216 % 256,
   n / 65536 % 256, n / 256 % 256, n % 256]

/-- SHA-1 padding: 0x80, zeros to 56 mod 64, then the bit length. -/
def sha1Pad (msg : List Nat) : List Nat :=
  let zeros := (119 - msg.length % 64) % 64
  msg ++ (128 :: List.replicate zeros 0) ++ sha1LenBytes (8 * msg.length)

/-- Big-endian 32-bit words of a 64-byte chunk. -/
def wordsOfChunk : List Nat → List Nat
  | b0 :: b1 :: b2 :: b3 :: rest =>
      (b0 * 16777216 + b1 * 65536 + b2 * 256 + b3) :: wordsOfChunk rest
  | _ => []

/-- Split into 64-byte chunks (the padded message length is a multiple
of 64). -/
def chunks64 (l : List Nat) : List (List Nat) :=
  if hl : l = [] then []
  else l.take 64 :: chunks64 (l.drop 64)
termination_by l.length
decreasing_by
  have hz : l.length ≠ 0 := fun hz => hl (List.eq_nil_of_length_eq_zero hz)
  simp [List.length_drop]
  omega

/-- Message-schedule extension: prepend k more words to the reversed
word list. -/
def sha1ExtendLoop : Nat → List Nat → List Nat
  | 0, acc => acc
  | k + 1, acc =>
      let x := acc.getD 2 0 ^^^ acc.getD 7 0 ^^^ acc.getD 13 0 ^^^ acc.getD 15 0
      sha1ExtendLoop k (rotl32 x 1 :: acc)

/-- The 80-word message schedule of one chunk. -/
def sha1Schedule (chunk : List Nat) : List Nat :=
  (sha1ExtendLoop 64 (wordsOfChunk chunk).reverse).reverse

/-- One compression round. -/
def sha1Round (st : Nat × Nat × Nat × Nat × Nat) (iw : Nat × Nat) :
    Nat × Nat × Nat × Nat × Nat :=
  match st, iw with
  | (a, b, c, d, e), (i, w) =>
      let temp := add32 (add32 (add32 (add32 (rotl32 a 5) (sha1F i b c d)) e)
        (sha1K i)) w
      (temp, a, rotl32 b 30, c, d)

/-- Process one 64-byte chunk. -/
def sha1Chunk (h : Nat × Nat × Nat × Nat × Nat) (chunk : List Nat) :
    Nat × Nat × Nat × Nat × Nat :=
  match h with
  | (h0, h1, h2, h3, h4) =>
      match ((List.range 80).zip (sha1Schedule chunk)).foldl sha1Round
          (h0, h1, h2, h3, h4) with
      | (a, b, c, d, e) =>
          (add32 h0 a, add32 h1 b, add32 h2 c, add32 h3 d, add32 h4 e)

def hexDigitLower (n : Nat) : Char :=
  if n < 10 then Char.ofNat (48 + n) else Char.ofNat (87 + n)

/-- Lowercase hex of one 32-bit word. -/
def word8Hex (w : Nat) : List Char :=
  [hexDigitLower (w / 268435456 % 16), hexDigitLower (w / 16777216 % 16),
   hexDigitLower (w / 1048576 % 16), hexDigitLower (w / 65536 % 16),
   hexDigitLower (w / 4096 % 16), hexDigitLower (w / 256 % 16),
   hexDigitLower (w / 16 % 16), hexDigitLower (w % 16)]

/-- hashlib.sha1(msg).hexdigest() on a byte list. -/
def sha1Hex (msg : List Nat) : String :=
  match (chunks64 (sha1Pad msg)).foldl sha1Chunk
      (1732584193, 4023233417, 2562383102, 271733878, 3285377520) with
  | (h0, h1, h2, h3, h4) =>
      ⟨word8Hex h0 ++ word8Hex h1 ++ word8Hex h2 ++ word8Hex h3 ++ word8Hex h4⟩

/-! ## Artifacts, dependencies and the registry -/

/-- The two Dependency variants: a FetchDependency holds the (freshly
constructed) Fetch artifact, observable through its normalized url, plus
the resolved file_name; a RecipeDependency holds the target recipe name
and version. -/
inductive DependencyM : Type
  | fetchDep (url : String) (fileName : String)
  | recipeDep (recipeName : String) (version : String)
  deriving Repr, DecidableEq

/-- Dependency.artifact_id(). -/
def dependencyArtifactId : DependencyM → String
  | .fetchDep u _ => "Fetch:" ++ u
  | .recipeDep n v => "Recipe:" ++ n ++ "/" ++ v

/-- Dependency.get_mounting_path(). -/
def dependencyMountingPath : DependencyM → String
  | .fetchDep _ fn => "fetch/" ++ fn
  | .recipeDep n v => "recipes/" ++ n ++ "/" ++ v ++ "/data"

/-- The two Artifact variants: PythonRecipe (name, version, source and
build subfolder, dependencies) and Fetch (normalized url). -/
inductive ArtifactM : Type
  | recipe (name version srcFolder bldFolder : String) (deps : List DependencyM)
  | fetch (url : String)
  deriving Repr, DecidableEq

/-- Artifact.id(). -/
def artifactId : ArtifactM → String
  | .recipe n v _ _ _ => "Recipe:" ++ n ++ "/" ++ v
  | .fetch u => "Fetch:" ++ u

def isRecipeArtifact : ArtifactM → Bool
  | .recipe _ _ _ _ _ => true
  | .fetch _ => false

def artifactDeps : ArtifactM → List DependencyM
  | .recipe _ _ _ _ ds => ds
  | .fetch _ => []

/-- The artifact registry: a Python dict from id to artifact, embedded as
an insertion-ordered association list with unique keys. -/
abbrev Registry := List (String × ArtifactM)

/-- os.path.join on two components (POSIX): an absolute second component
replaces the first, otherwise a slash separates them unless one is
already there. -/
def osPathJoin (a b : String) : String :=
  if startsSlash b.data then b
  else if a = "" then b
  else if a.data.getLast? = some '/' then a ++ b
  else a ++ "/" ++ b

/-- Fetch.get_build_path: `<build_folder>/fetch_cache/<sha1(url)[:24]>`;
Recipe.get_build_path:
`<build_folder>/recipes/<name>/<version_build_folder>`. -/
def artifactBuildPath (buildFolder : String) : ArtifactM → String
  | .fetch u =>
      osPathJoin (osPathJoin buildFolder "fetch_cache")
        ⟨(sha1Hex (utf8Encode u.data)).data.take 24⟩
  | .recipe n _ _ bld _ =>
      osPathJoin (osPathJoin (osPathJoin buildFolder "recipes") n) bld

/-- FetchDependency file_name default: the final segment of the
normalized url after the last '/', or the whole url when it has no
slash (url[url.rfind('/') + 1:]). -/
def afterLastSlash (u : String) : String :=
  let r := rpartitionChar u.data '/'
  if r.2.1 then ⟨r.2.2⟩ else u

/-- register_fetch_dependency: construct the Fetch (normalizing the url —
none models the exception escaping), insert it into the registry only if
its id is absent, and return the FetchDependency. -/
def registerFetchDependency (artifacts : Registry) (url : String)
    (fileName : Option String) : Option (Registry × DependencyM) := do
  let n ← normalizeUrl url
  let aid := "Fetch:" ++ n
  let artifacts2 :=
    if alistHasKey artifacts aid then artifacts
    else artifacts ++ [(aid, ArtifactM.fetch n)]
  let fn := match fileName with
    | some f => f
    | none => afterLastSlash n
  return (artifacts2, .fetchDep n fn)

/-- register_recipe_dependency: builds the RecipeDependency without
touching the registry. -/
def registerRecipeDependency (recipeName version : String) : DependencyM :=
  .recipeDep recipeName version

/-- Number of registry entries carrying a given key. -/
def countKey (reg : Registry) (k : String) : Nat :=
  (reg.filter (fun p => p.1 = k)).length

/-! ## Manifest schemas and read_recipes

The JSON files are modelled after parsing: versions.json as a list of
(version_tag, object) pairs whose objects are string-valued key/value
lists (values of other JSON types, which the schema would reject for the
constrained keys, are outside the scope of the claims below), and
recipe.json as a record whose dependency entries already carry their
`type` discriminator as a constructor. -/

/-- Characters forbidden by the filename pattern
`^(?![ .])[^<>:"/\\|?*\r\n]+(?<![ .])$` (the class excludes backslash and
pipe: the Python literal doubles the backslash). -/
def forbiddenNameChars : List Char :=
  ['<', '>', ':', '"', '/', '\\', '|', '?', '*', '\r', '\n']

/-- The filename pattern used for folder, artifact_folder, file_name and
recipe_name, matched as Python re.search does: `$` may also match just
before one final newline. -/
def matchesNamePattern (s : String) : Bool :=
  let l := s.data
  let t := if l.getLast? = some '\n' then l.dropLast else l
  match t with
  | [] => false
  | c0 :: _ =>
      !(c0 = ' ' || c0 = '.') &&
      t.all (fun c => !forbiddenNameChars.contains c) &&
      (match t.getLast? with
       | some cl => !(cl = ' ' || cl = '.')
       | none => false)

def urlClass1 (c : Char) : Bool :=
  isAsciiAlphaChar c || isAsciiDigitChar c || "-@:%._+~#=".data.contains c

def urlClass2 (c : Char) : Bool :=
  isAsciiAlphaChar c || isAsciiDigitChar c || c = '(' || c = ')'

def urlClass3 (c : Char) : Bool :=
  isAsciiAlphaChar c || isAsciiDigitChar c || "-()@:%_+.~#?&/=".data.contains c

/-- Existence of a match of the body of the fetch url pattern
`C1{1,256}\.C2{1,6}C3*$`: some split positions work. -/
def urlBodyMatch (l : List Char) : Bool :=
  (List.range 256).any fun i0 =>
    let i := i0 + 1
    decide (i + 1 ≤ l.length) &&
    (l.take i).all urlClass1 &&
    l.getD i ' ' = '.' &&
    ((List.range 6).any fun j0 =>
      let j := j0 + 1
      let afterDot := l.drop (i + 1)
      decide (j ≤ afterDot.length) &&
      (afterDot.take j).all urlClass2 &&
      (afterDot.drop j).all urlClass3)

/-- The fetch url pattern
`^https?:\/\/(?:www\.)?C1{1,256}\.C2{1,6}(?:C3*)$` as a match-existence
test. -/
def matchesUrlPattern (s : String) : Bool :=
  let afterScheme : Option (List Char) :=
    match s.data with
    | 'h' :: 't' :: 't' :: 'p' :: 's' :: ':' :: '/' :: '/' :: r => some r
    | 'h' :: 't' :: 't' :: 'p' :: ':' :: '/' :: '/' :: r => some r
    | _ => none
  match afterScheme with
  | none => false
  | some r =>
      urlBodyMatch r ||
      (match r with
       | 'w' :: 'w' :: 'w' :: '.' :: r2 => urlBodyMatch r2
       | _ => false)

/-- A dependency object of recipe.json after parsing, discriminated on
its `type`. -/
inductive RawDep : Type
  | fetch (url : String) (fileName : Option String)
  | build (recipeName version : String)
  deriving Repr, DecidableEq

/-- The per-type dependency schemas of dependency_types. -/
def validRawDep : RawDep → Bool
  | .fetch url fn =>
      matchesUrlPattern url &&
        (match fn with
         | some f => matchesNamePattern f
         | none => true)
  | .build rn _ => matchesNamePattern rn

/-- recipe.json after parsing. -/
structure RawRecipeJson : Type where
  recipeType : String
  dependencies : List RawDep
  deriving Repr, DecidableEq

/-- The recipe_schema: recipe_type must be a known type (only "python")
and every dependency must satisfy its variant schema. -/
def validRecipeJson (r : RawRecipeJson) : Bool :=
  ["python"].contains r.recipeType && r.dependencies.all validRawDep

/-- The versions_schema on one version object: only the keys folder and
artifact_folder are allowed (additionalProperties is false), folder is
required, and the values must match the filename pattern. -/
def validVersionObject (obj : List (String × String)) : Bool :=
  obj.all (fun p =>
    (p.1 = "folder" || p.1 = "artifact_folder") && matchesNamePattern p.2) &&
  alistHasKey obj "folder"

/-- The versions_schema: every version object must validate. -/
def validVersionsJson
    (vs : List (String × List (String × String))) : Bool :=
  vs.all (fun p => validVersionObject p.2)

/-- Recipe.__init__ (via PythonRecipe): the source subfolder is
version_json["folder"] (validated present; the model defaults to "" where
Python would raise KeyError) and the build subfolder is
version_json["folder_alias"] when that key is present, the source
subfolder otherwise. -/
def recipeInit (recipeName recipeVersion : String)
    (versionJson : List (String × String)) (deps : List DependencyM) :
    ArtifactM :=
  let src := (alistLookup versionJson "folder").getD ""
  let bld := match alistLookup versionJson "folder_alias" with
    | some f => f
    | none => src
  .recipe recipeName recipeVersion src bld deps

/-- One recipe directory under the recipes root as read_recipes sees it:
its name, the parsed versions.json (none when the file is missing), and
the parsed recipe.json files of its subfolders (a folder absent from this
list has no recipe.json). -/
structure RecipeDirM : Type where
  name : String
  versionsJson : Option (List (String × List (String × String)))
  files : List (String × RawRecipeJson)
  deriving Repr, DecidableEq

/-- The dependency-registration loop of read_recipes: thread the registry
through the per-type register functions, collecting the Dependency
values.  none models an exception escaping (normalize_url raising). -/
def processDeps (artifacts : Registry) :
    List RawDep → Option (Registry × List DependencyM)
  | [] => some (artifacts, [])
  | .fetch url fn :: rest => do
      let r1 ← registerFetchDependency artifacts url fn
      let r2 ← processDeps r1.1 rest
      return (r2.1, r1.2 :: r2.2)
  | .build rn v :: rest => do
      let r2 ← processDeps artifacts rest
      return (r2.1, registerRecipeDependency rn v :: r2.2)

/-- The per-version loop of read_recipes: skip a version whose folder has
no recipe.json or whose recipe.json fails validation, otherwise register
the dependencies and insert the recipe at its id. -/
def processVersions (recipeName : String)
    (files : List (String × RawRecipeJson)) (artifacts : Registry) :
    List (String × List (String × String)) → Option Registry
  | [] => some artifacts
  | (tag, obj) :: rest =>
      let folder := (alistLookup obj "folder").getD ""
      match alistLookup files folder with
      | none => processVersions recipeName files artifacts rest
      | some rj =>
          if validRecipeJson rj then do
            let r ← processDeps artifacts rj.dependencies
            let recipe := recipeInit recipeName tag obj r.2
            processVersions recipeName files
              (dictInsert r.1 (artifactId recipe) recipe) rest
          else processVersions recipeName files artifacts rest

/-- read_recipes over the recipe directories: a directory without
versions.json or with an invalid one is skipped with a warning, otherwise
its versions are processed.  (A dependency type unknown to
dependency_types would exit fatally; the discriminated RawDep embedding
cannot express that case.) -/
def readRecipes : List RecipeDirM → Registry → Option Registry
  | [], artifacts => some artifacts
  | d :: rest, artifacts =>
      match d.versionsJson with
      | none => readRecipes rest artifacts
      | some vs =>
          if validVersionsJson vs then do
            let r ← processVersions d.name d.files artifacts vs
            readRecipes rest r
          else readRecipes rest artifacts

/-- Registry invariant: every entry is keyed by its artifact's id. -/
def RegKeysId (reg : Registry) : Prop :=
  ∀ p ∈ reg, p.1 = artifactId p.2

/-- Registry invariant: every fetch dependency of every artifact in the
registry has its artifact id among the keys. -/
def RegFetchDepsPresent (reg : Registry) : Prop :=
  ∀ p ∈ reg, ∀ d ∈ artifactDeps p.2, ∀ u fn,
    d = DependencyM.fetchDep u fn →
    alistHasKey reg ("Fetch:" ++ u) = true

/-! ## Dependency graph and scheduler (compute_dependencies_graph, build_all)

graphlib.TopologicalSorter is modelled by its documented contract: after
prepare(), get_ready() returns exactly the nodes, not yet passed out, all
of whose predecessors have been marked done; prepare() raises CycleError
when the graph has a cycle.  build_all's per-artifact build call is
abstracted by an outcome oracle (id, override) -> Bool telling whether
artifact.build returns normally (true: success, cache hit or
skipped-unchanged) or raises (false). -/

/-- Edges (node, predecessor) in the order compute_dependencies_graph
adds them: for every Recipe in the registry, one edge per dependency. -/
def graphEdges (artifacts : Registry) : List (String × String) :=
  (artifacts.map (fun p =>
    match p.2 with
    | ArtifactM.recipe _ _ _ _ ds =>
        ds.map (fun d => (artifactId p.2, dependencyArtifactId d))
    | ArtifactM.fetch _ => [])).flatten

/-- The sorter's graph: node infos in first-mention order and the edge
multiset.  Nodes never mentioned by any edge (recipes without
dependencies that nothing depends on) are absent, exactly as in the
source, which only ever calls add(recipe_id, dependency_id). -/
structure TopoSorter : Type where
  nodes : List String
  edges : List (String × String)
  deriving Repr, DecidableEq

def topoAddNode (ns : List String) (x : String) : List String :=
  if ns.contains x then ns else ns ++ [x]

/-- TopologicalSorter.add(node, pred): create missing node infos (node
first, then the predecessor) and record the edge. -/
def topoAdd (t : TopoSorter) (node pred : String) : TopoSorter :=
  ⟨topoAddNode (topoAddNode t.nodes node) pred, t.edges ++ [(node, pred)]⟩

/-- compute_dependencies_graph: fold add over every recipe's dependency
edges. -/
def computeDependenciesGraph (artifacts : Registry) : TopoSorter :=
  (graphEdges artifacts).foldl (fun t e => topoAdd t e.1 e.2) ⟨[], []⟩

def predsOf (t : TopoSorter) (n : String) : List String :=
  (t.edges.filter (fun e => e.1 = n)).map Prod.snd

/-- Kahn elimination with fuel: repeatedly remove nodes whose
predecessors are all removed; the leftover is nonempty exactly when the
graph has a cycle, which is the boolean prepare() cares about
(_find_cycle is a DFS computing the same boolean). -/
def kahnElim (t : TopoSorter) : Nat → List String → List String
  | 0, remaining => remaining
  | fuel + 1, remaining =>
      let ready := remaining.filter (fun n =>
        (predsOf t n).all (fun p => !remaining.contains p))
      if ready.isEmpty then remaining
      else kahnElim t fuel (remaining.filter (fun n => !ready.contains n))

def hasCycle (t : TopoSorter) : Bool :=
  !(kahnElim t t.nodes.length t.nodes).isEmpty

/-- One observable event per processed artifact id: build returned
normally (skip or success), build raised (error logged, id failed), or
the artifact was skipped because a dependency already failed (warning
logged, id failed, build not invoked). -/
inductive BuildEvent : Type
  | built (id : String)
  | buildFailed (id : String)
  | skippedDepFailed (id : String)
  deriving Repr, DecidableEq

def eventId : BuildEvent → String
  | .built i => i
  | .buildFailed i => i
  | .skippedDepFailed i => i

/-- An invocation of artifact.build happened for this event. -/
def eventIsInvoke : BuildEvent → Bool
  | .built _ => true
  | .buildFailed _ => true
  | .skippedDepFailed _ => false

/-- Scheduler state: ids already passed out by get_ready, ids marked
done, the failed_artifacts_ids set, and the event trace in processing
order. -/
structure SchedState : Type where
  yielded : List String
  doneIds : List String
  failed : List String
  trace : List BuildEvent
  deriving Repr, DecidableEq

/-- Python set.add. -/
def addToSet (l : List String) (x : String) : List String :=
  if l.contains x then l else l ++ [x]

/-- get_ready per the graphlib contract: nodes not yet passed out whose
predecessors are all done, in node-info order. -/
def readyNodes (t : TopoSorter) (st : SchedState) : List String :=
  t.nodes.filter (fun n =>
    !st.yielded.contains n &&
      (predsOf t n).all (fun p => st.doneIds.contains p))

/-- State after the dependency-failed skip: warn, add to failed, mark
done. -/
def skipState (st : SchedState) (aid : String) : SchedState :=
  { st with failed := addToSet st.failed aid,
            doneIds := st.doneIds ++ [aid],
            trace := st.trace ++ [.skippedDepFailed aid] }

/-- State after invoking artifact.build: on normal return just mark done,
on a raised exception log, add to failed and mark done. -/
def runState (buildOk : String → Bool → Bool) (override : Bool)
    (st : SchedState) (aid : String) : SchedState :=
  if buildOk aid override then
    { st with doneIds := st.doneIds ++ [aid], trace := st.trace ++ [.built aid] }
  else
    { st with failed := addToSet st.failed aid,
              doneIds := st.doneIds ++ [aid],
              trace := st.trace ++ [.buildFailed aid] }

/-- The body of build_all's inner loop for one ready artifact id:
artifacts[artifact_id] (KeyError on a dangling id is none); for a Recipe
with some dependency in failed_artifacts_ids, warn/fail/done and do not
build (the for-else plus `continue` of the source; the id itself is never
already failed, being processed exactly once); otherwise build. -/
def processOne (artifacts : Registry) (buildOk : String → Bool → Bool)
    (override : Bool) (st : SchedState) (aid : String) : Option SchedState :=
  match alistLookup artifacts aid with
  | none => none
  | some a =>
      if isRecipeArtifact a = true then
        match (artifactDeps a).find?
            (fun d => st.failed.contains (dependencyArtifactId d)) with
        | some _ => some (skipState st aid)
        | none => some (runState buildOk override st aid)
      else some (runState buildOk override st aid)

/-- Process the batch returned by one get_ready() call, in order. -/
def processBatch (artifacts : Registry) (buildOk : String → Bool → Bool)
    (override : Bool) : SchedState → List String → Option SchedState
  | st, [] => some st
  | st, aid :: rest => do
      let st2 ← processOne artifacts buildOk override st aid
      processBatch artifacts buildOk override st2 rest

/-- The while-is_active loop: take the ready batch (marking it passed
out), process it, repeat.  With every processed node marked done,
is_active at the loop head is equivalent to the ready set being nonempty;
fuel bounds the iterations (none on exhaustion, which cannot happen for
the acyclic graphs that reach the loop). -/
def schedLoop (artifacts : Registry) (buildOk : String → Bool → Bool)
    (override : Bool) (t : TopoSorter) : Nat → SchedState → Option SchedState
  | 0, st => if (readyNodes t st).isEmpty then some st else none
  | fuel + 1, st =>
      let batch := readyNodes t st
      if batch.isEmpty then some st
      else do
        let st2 ← processBatch artifacts buildOk override
          { st with yielded := st.yielded ++ batch } batch
        schedLoop artifacts buildOk override t fuel st2

/-- build_all: takes the registry and the dependency graph (the CLI
passes compute_dependencies_graph's result), prepares it (CycleError on a
cyclic graph is none), runs the scheduling loop and returns the event
trace and the failed id set.  num_jobs is accepted and never read, as in
the source, whose worker-queue code is commented out. -/
def buildAll (artifacts : Registry) (dependenciesGraph : TopoSorter)
    (buildOk : String → Bool → Bool) (override : Bool) (numJobs : Nat) :
    Option (List BuildEvent × List String) :=
  if hasCycle dependenciesGraph then none
  else
    match schedLoop artifacts buildOk override dependenciesGraph
        (dependenciesGraph.nodes.length + 1) ⟨[], [], [], []⟩ with
    | none => none
    | some st => some (st.trace, st.failed)

/-! ## Scheduler lemmas -/

/-- The edge relation of the dependency graph: x depends directly on y. -/
def edgeRel (artifacts : Registry) (x y : String) : Prop :=
  (x, y) ∈ graphEdges artifacts

/-- Every event's direct graph predecessors appear earlier in the
trace. -/
def TraceClosed (edges : List (String × String)) (trace : List BuildEvent) :
    Prop :=
  ∀ j e, trace.get? j = some e → ∀ p, (eventId e, p) ∈ edges →
    ∃ k, k < j ∧ ∃ e2, trace.get? k = some e2 ∧ eventId e2 = p

/-- Every done id has an event in the trace. -/
def DoneInTrace (st : SchedState) : Prop :=
  ∀ d ∈ st.doneIds, ∃ k e2, st.trace.get? k = some e2 ∧ eventId e2 = d

theorem alistHasKey_iff_mem {α : Type} (l : List (String × α)) (k : String) :
    alistHasKey l k = true ↔ k ∈ l.map Prod.fst := by
  induction l with
  | nil => simp [alistHasKey]
  | cons hd tl ih =>
    obtain ⟨k', v⟩ := hd
    rw [alistHasKey, Bool.or_eq_true, ih]
    simp only [List.map_cons, List.mem_cons]
    constructor
    · rintro (h | h)
      · exact Or.inl (by simpa [eq_comm] using h)
      · exact Or.inr h
    · rintro (h | h)
      · exact Or.inl (by simpa [eq_comm] using h)
      · exact Or.inr h

theorem alistLookup_mem {α : Type} {l : List (String × α)} {k : String} {v : α}
    (h : alistLookup l k = some v) : (k, v) ∈ l := by
  induction l with
  | nil => simp [alistLookup] at h
  | cons hd tl ih =>
    obtain ⟨k', v'⟩ := hd
    by_cases hk : k' = k
    · subst hk
      simp [alistLookup] at h
      simp [h]
    · simp [alistLookup, hk] at h
      exact List.mem_cons_of_mem _ (ih h)

theorem alistLookup_isSome_of_hasKey {α : Type} {l : List (String × α)}
    {k : String} (h : alistHasKey l k = true) :
    ∃ v, alistLookup l k = some v := by
  induction l with
  | nil => simp [alistHasKey] at h
  | cons hd tl ih =>
    obtain ⟨k', v'⟩ := hd
    by_cases hk : k' = k
    · exact ⟨v', by simp [alistLookup, hk]⟩
    · rw [alistHasKey, Bool.or_eq_true] at h
      rcases h with h | h
      · exact absurd (by simpa using h) hk
      · obtain ⟨v, hv⟩ := ih h
        exact ⟨v, by simp [alistLookup, hk, hv]⟩

theorem alistHasKey_of_lookup {α : Type} {l : List (String × α)} {k : String}
    {v : α} (h : alistLookup l k = some v) : alistHasKey l k = true :=
  (alistHasKey_iff_mem l k).2 (List.mem_map_of_mem Prod.fst (alistLookup_mem h))

theorem alistLookup_of_mem_distinct {α : Type} {l : List (String × α)}
    {k : String} {v : α} (hd : distinctNames (l.map Prod.fst) = true)
    (hm : (k, v) ∈ l) : alistLookup l k = some v := by
  induction l with
  | nil => simp at hm
  | cons hd' tl ih =>
    obtain ⟨k', v'⟩ := hd'
    simp only [List.map_cons, distinctNames, Bool.and_eq_true,
      Bool.not_eq_true'] at hd
    rcases List.mem_cons.1 hm with h | h
    · injection h with h1 h2
      subst h1; subst h2
      simp [alistLookup]
    · have hk : k' ≠ k := by
        intro he
        subst he
        have : k' ∈ tl.map Prod.fst := List.mem_map_of_mem _ h
        simp_all
      rw [alistLookup]
      simp only [hk, if_false]
      exact ih (by simp_all) h

theorem alistLookup_append_left {α : Type} {l : List (String × α)} {k : String}
    {v : α} (h : alistLookup l k = some v) (extra : List (String × α)) :
    alistLookup (l ++ extra) k = some v := by
  induction l with
  | nil => simp [alistLookup] at h
  | cons hd tl ih =>
    obtain ⟨k', v'⟩ := hd
    by_cases hk : k' = k <;> simp_all [alistLookup, hk]

theorem wfList_mem {l : List (String × FsEntry)} {k : String} {e : FsEntry}
    (hw : wfList l = true) (hm : (k, e) ∈ l) : wfEntry e = true := by
  induction l with
  | nil => simp at hm
  | cons hd tl ih =>
    obtain ⟨k', e'⟩ := hd
    simp [wfList] at hw
    rcases List.mem_cons.1 hm with h | h
    · injection h with h1 h2
      subst h2
      exact hw.1
    · exact ih hw.2 h

/-- Characterization of the subdirectory recursion of
`left_files_changed` as an existential over the left entries. -/
theorem leftFilesChangedSubdirs_iff (s : List (String × FsEntry)) (b : FsDir) :
    leftFilesChangedSubdirs s b = true ↔
      ∃ n sd bd, (n, FsEntry.dir sd) ∈ s ∧ ignoredName n = false ∧
        alistLookup b n = some (.dir bd) ∧
        leftFilesChanged (.dir sd) (.dir bd) = true := by
  induction s with
  | nil => simp [leftFilesChangedSubdirs]
  | cons hd tl ih =>
    obtain ⟨n, e⟩ := hd
    rw [leftFilesChangedSubdirs]
    simp only [Bool.or_eq_true, Bool.and_eq_true, Bool.not_eq_true', ih]
    constructor
    · rintro (⟨hig, h⟩ | h)
      · cases e with
        | file c m => simp [leftFilesChangedAt] at h
        | dir sd =>
          cases hlk : alistLookup b n with
          | none => rw [hlk] at h; simp [leftFilesChangedAt] at h
          | some be =>
            cases be with
            | file c m => rw [hlk] at h; simp [leftFilesChangedAt] at h
            | dir bd =>
              rw [hlk] at h
              rw [leftFilesChangedAt] at h
              exact ⟨n, sd, bd, List.mem_cons_self _ _, hig, hlk, h⟩
      · obtain ⟨n', sd, bd, hm, hig, hlk, hch⟩ := h
        exact ⟨n', sd, bd, List.mem_cons_of_mem _ hm, hig, hlk, hch⟩
    · rintro ⟨n', sd, bd, hm, hig, hlk, hch⟩
      rcases List.mem_cons.1 hm with h | h
      · injection h with h1 h2
        subst h1; subst h2
        exact Or.inl ⟨hig, by rw [hlk, leftFilesChangedAt]; exact hch⟩
      · exact Or.inr ⟨n', sd, bd, h, hig, hlk, hch⟩

/-- A well-formed source listing extended on the right by any entries is
never reported changed: every source path is still present with identical
bytes and mtime.  This is the situation after a `shutil.copytree` of the
source followed by creation of `data/`. -/
theorem leftFilesChanged_append_eq_false (s : List (String × FsEntry))
    (extra : List (String × FsEntry)) (hw : wfEntry (.dir s) = true) :
    leftFilesChanged (.dir s) (.dir (s ++ extra)) = false := by
  rw [leftFilesChanged]
  rw [wfEntry, Bool.and_eq_true] at hw
  obtain ⟨hdn, hwl⟩ := hw
  simp only [Bool.or_eq_false_iff]
  refine ⟨⟨?_, ?_⟩, ?_⟩
  · simp only [dcmpLeftOnlyNonempty, List.any_eq_false]
    intro n hn
    simp only [Bool.not_eq_true', Bool.not_eq_false]
    simp only [listedNames, List.mem_filter] at hn
    have hmem : n ∈ listedNames (s ++ extra) := by
      simp only [listedNames, List.mem_filter]
      refine ⟨?_, hn.2⟩
      rw [List.map_append]
      exact List.mem_append_left _ hn.1
    exact List.elem_eq_true_of_mem hmem
  · simp only [dcmpDiffFilesNonempty, List.any_eq_false]
    intro n hn
    cases hlk : alistLookup s n with
    | none => simp [hlk]
    | some e =>
      cases e with
      | dir d => simp [hlk, alistLookup_append_left hlk extra]
      | file c m =>
        simp [hlk, alistLookup_append_left hlk extra, shallowCmp]
  · rw [Bool.eq_false_iff]
    intro hch
    obtain ⟨n, sd, bd, hm, hig, hlk, hrec⟩ :=
      (leftFilesChangedSubdirs_iff s (s ++ extra)).1 hch
    have hfirst : alistLookup s n = some (.dir sd) :=
      alistLookup_of_mem_distinct hdn hm
    have heq : alistLookup (s ++ extra) n = some (.dir sd) :=
      alistLookup_append_left hfirst extra
    rw [heq] at hlk
    injection hlk with hlk2
    injection hlk2 with hlk3
    subst hlk3
    have hwsd : wfEntry (.dir sd) = true := wfList_mem hwl hm
    have hz := leftFilesChanged_append_eq_false sd [] hwsd
    rw [List.append_nil] at hz
    rw [hz] at hrec
    cases hrec
termination_by sizeOf s
decreasing_by
  have h1 : sizeOf (n, FsEntry.dir sd) ≤ sizeOf s := le_of_lt (List.sizeOf_lt_of_mem hm)
  simp at h1
  omega

/-- When the source has no `data` entry of its own, the container write
replaces exactly the `data` entry that `ensureDataDir` appended. -/
theorem writeData_append_data (src : FsDir) (x d : FsEntry)
    (h : alistHasKey src "data" = false) :
    writeData (src ++ [("data", x)]) d = src ++ [("data", d)] := by
  induction src with
  | nil => simp [writeData]
  | cons p rest ih =>
      obtain ⟨n, e⟩ := p
      rw [alistHasKey, Bool.or_eq_false_iff] at h
      have hne : n ≠ "data" := by
        have h1 := h.1
        simpa using h1
      simp only [List.cons_append, writeData, if_neg hne, List.append_eq]
      rw [ih h.2]

theorem dirAtPath_cons {t d : FsDir} {c : String} {cs : List String}
    (hig : ignoredName c = false) (hlk : alistLookup t c = some (.dir d)) :
    dirAtPath t (c :: cs) = dirAtPath d cs := by
  rw [dirAtPath, hig, hlk]
  simp

theorem specChanged_to_leftFilesChanged :
    ∀ (p : List String) (src bld sd bd : FsDir),
      dirAtPath src p = some sd → dirAtPath bld p = some bd →
      ((∃ n, ignoredName n = false ∧ alistHasKey sd n = true ∧
          alistHasKey bd n = false) ∨
       (∃ n c1 m1 c2 m2, ignoredName n = false ∧
          alistLookup sd n = some (.file c1 m1) ∧
          alistLookup bd n = some (.file c2 m2) ∧
          shallowCmp c1 m1 c2 m2 = false)) →
      leftFilesChanged (.dir src) (.dir bld) = true := by
  intro p
  induction p with
  | nil =>
    intro src bld sd bd hs hb hcl
    rw [dirAtPath] at hs hb
    injection hs with hs; injection hb with hb
    subst hs; subst hb
    rw [leftFilesChanged]
    rcases hcl with ⟨n, hig, hks, hkb⟩ | ⟨n, c1, m1, c2, m2, hig, hls, hlb, hsh⟩
    · have h1 : dcmpLeftOnlyNonempty src bld = true := by
        rw [dcmpLeftOnlyNonempty, List.any_eq_true]
        refine ⟨n, ?_, ?_⟩
        · exact List.mem_filter.2 ⟨(alistHasKey_iff_mem src n).1 hks, by simp [hig]⟩
        · simp only [Bool.not_eq_true']
          rw [Bool.eq_false_iff]
          intro hc
          have := List.mem_filter.1 (List.elem_iff.1 hc)
          rw [← alistHasKey_iff_mem] at this
          rw [this.1] at hkb
          cases hkb
      rw [h1]
      simp
    · have h2 : dcmpDiffFilesNonempty src bld = true := by
        rw [dcmpDiffFilesNonempty, List.any_eq_true]
        refine ⟨n, ?_, ?_⟩
        · exact List.mem_filter.2
            ⟨(alistHasKey_iff_mem src n).1 (alistHasKey_of_lookup hls), by simp [hig]⟩
        · rw [hls, hlb]
          simp [hsh]
      rw [h2]
      simp
  | cons c cs ih =>
    intro src bld sd bd hs hb hcl
    rw [dirAtPath] at hs hb
    by_cases hig : ignoredName c = true
    · rw [hig] at hs
      simp at hs
    · rw [Bool.not_eq_true] at hig
      rw [hig] at hs hb
      simp only [if_false, Bool.false_eq_true] at hs hb
      cases hls : alistLookup src c with
      | none => rw [hls] at hs; simp at hs
      | some e =>
        cases e with
        | file c1 m1 => rw [hls] at hs; simp at hs
        | dir d =>
          rw [hls] at hs
          cases hlb : alistLookup bld c with
          | none => rw [hlb] at hb; simp at hb
          | some e2 =>
            cases e2 with
            | file c2 m2 => rw [hlb] at hb; simp at hb
            | dir d2 =>
              rw [hlb] at hb
              have hrec := ih d d2 sd bd hs hb hcl
              rw [leftFilesChanged]
              have hsub : leftFilesChangedSubdirs src bld = true :=
                (leftFilesChangedSubdirs_iff src bld).2
                  ⟨c, d, d2, alistLookup_mem hls, hig, hlb, hrec⟩
              rw [hsub]
              simp

/-- The change detector agrees with the declarative path-based reading on
well-formed source trees. -/
theorem leftFilesChanged_iff_specChanged (src bld : FsDir)
    (hw : wfEntry (.dir src) = true) :
    leftFilesChanged (.dir src) (.dir bld) = true ↔ specChanged src bld := by
  constructor
  · intro h
    rw [leftFilesChanged] at h
    rw [wfEntry, Bool.and_eq_true] at hw
    obtain ⟨hdn, hwl⟩ := hw
    rw [Bool.or_eq_true, Bool.or_eq_true] at h
    rcases h with (h1 | h2) | hsub
    · obtain ⟨n, hn, hnb⟩ := List.any_eq_true.1 h1
      obtain ⟨hnm, hni⟩ := List.mem_filter.1 hn
      refine ⟨[], src, bld, rfl, rfl, Or.inl ⟨n, by simpa using hni, ?_, ?_⟩⟩
      · exact (alistHasKey_iff_mem src n).2 hnm
      · rw [Bool.not_eq_true'] at hnb
        rw [Bool.eq_false_iff]
        intro hk
        have hmm : n ∈ listedNames bld := List.mem_filter.2
          ⟨(alistHasKey_iff_mem bld n).1 hk, hni⟩
        have hnb2 : List.elem n (listedNames bld) = false := hnb
        rw [List.elem_eq_true_of_mem hmm] at hnb2
        cases hnb2
    · obtain ⟨n, hn, hmatch⟩ := List.any_eq_true.1 h2
      obtain ⟨hnm, hni⟩ := List.mem_filter.1 hn
      cases hls : alistLookup src n with
      | none => rw [hls] at hmatch; simp at hmatch
      | some e =>
        cases e with
        | dir d => rw [hls] at hmatch; simp at hmatch
        | file c1 m1 =>
          rw [hls] at hmatch
          cases hlb : alistLookup bld n with
          | none => rw [hlb] at hmatch; simp at hmatch
          | some e2 =>
            cases e2 with
            | dir d2 => rw [hlb] at hmatch; simp at hmatch
            | file c2 m2 =>
              rw [hlb] at hmatch
              simp only [Bool.not_eq_true'] at hmatch
              exact ⟨[], src, bld, rfl, rfl, Or.inr
                ⟨n, c1, m1, c2, m2, by simpa using hni, hls, hlb,
                  by simpa using hmatch⟩⟩
    · obtain ⟨n, sd0, bd0, hm, hig, hlk, hrec⟩ :=
        (leftFilesChangedSubdirs_iff src bld).1 hsub
      have hfirst : alistLookup src n = some (.dir sd0) :=
        alistLookup_of_mem_distinct hdn hm
      have hwsd : wfEntry (.dir sd0) = true := wfList_mem hwl hm
      obtain ⟨p, sd, bd, hps, hpb, hcl⟩ :=
        (leftFilesChanged_iff_specChanged sd0 bd0 hwsd).1 hrec
      exact ⟨n :: p, sd, bd, by rw [dirAtPath_cons hig hfirst]; exact hps,
        by rw [dirAtPath_cons hig hlk]; exact hpb, hcl⟩
  · rintro ⟨p, sd, bd, hps, hpb, hcl⟩
    exact specChanged_to_leftFilesChanged p src bld sd bd hps hpb hcl
termination_by sizeOf src
decreasing_by
  have h1 : sizeOf (n, FsEntry.dir sd0) ≤ sizeOf src :=
    le_of_lt (List.sizeOf_lt_of_mem hm)
  simp at h1
  omega

/-! ## Claims C3, C4, C7 -/

/-- C3 counterexample: a sandbox failure with exit status 1 leaves the
copied tree on disk — the source plus a `data/` holding what the
container wrote (first conjunct) — and, every container write landing in
a `data/` entry that exists only on the build side, the next run without
override is skipped as unchanged instead of being re-detected as changed
and re-run as the claim states (last conjunct).  The middle conjunct
shows the change detector itself reports the recipe unchanged. -/
theorem c3_failed_run_then_skip :
    pythonRecipeBuild [("generate.py", FsEntry.file [104] 7)] none false
        (.containerError 1) (.dir [("out", FsEntry.file [2] 9)]) =
      (some [("generate.py", FsEntry.file [104] 7),
             ("data", FsEntry.dir [("out", FsEntry.file [2] 9)])],
        .raised) ∧
    leftFilesChanged (.dir [("generate.py", FsEntry.file [104] 7)])
        (.dir [("generate.py", FsEntry.file [104] 7),
               ("data", FsEntry.dir [("out", FsEntry.file [2] 9)])])
      = false ∧
    pythonRecipeBuild [("generate.py", FsEntry.file [104] 7)]
        (some [("generate.py", FsEntry.file [104] 7),
               ("data", FsEntry.dir [("out", FsEntry.file [2] 9)])])
        false .ok (.dir []) =
      (some [("generate.py", FsEntry.file [104] 7),
             ("data", FsEntry.dir [("out", FsEntry.file [2] 9)])],
        .skippedUnchanged) := by
  refine ⟨?_, ?_, ?_⟩ <;>
    simp [pythonRecipeBuild, pythonRecipeRunPhase, writeData, ensureDataDir,
      alistHasKey, leftFilesChanged, leftFilesChangedSubdirs,
      leftFilesChangedAt, dcmpLeftOnlyNonempty, dcmpDiffFilesNonempty,
      listedNames, ignoredName, defaultIgnores, shallowCmp, alistLookup]

/-- C3 (amended): if the sandbox run fails with exit status 1 or 137 the
failure is propagated (the exception is re-raised) and the copied tree —
the source plus a `data` entry holding whatever the container wrote — is
left on disk; provided the source tree has no `data` entry of its own,
the next run without override classifies the recipe as unchanged and
skips it without copying or re-invoking the sandbox, whatever the
container wrote.  When the source does ship its own `data/` and the
failing container modified a file inside it, the next run re-detects
change, re-copies and re-runs as the original claim says (last conjunct,
a concrete instance). -/
theorem c3_amended (src : FsDir) (e : Nat) (r : SandboxResult)
    (d d2 : FsEntry) (hw : wfEntry (.dir src) = true)
    (hnd : alistHasKey src "data" = false) (he : e = 1 ∨ e = 137) :
    (pythonRecipeBuild src none false (.containerError e) d =
      (some (src ++ [("data", d)]), .raised) ∧
    pythonRecipeBuild src (some (src ++ [("data", d)])) false r d2 =
      (some (src ++ [("data", d)]), .skippedUnchanged)) ∧
    pythonRecipeBuild [("data", FsEntry.dir [("f.txt", FsEntry.file [1] 5)])]
        (some [("data", FsEntry.dir [("f.txt", FsEntry.file [2] 9)])])
        false .ok (.dir [("f.txt", FsEntry.file [3] 11)]) =
      (some [("data", FsEntry.dir [("f.txt", FsEntry.file [3] 11)])],
        .finished) := by
  have hwd : writeData (ensureDataDir src) d = src ++ [("data", d)] := by
    simp only [ensureDataDir, hnd, Bool.false_eq_true, if_false]
    exact writeData_append_data src (.dir []) d hnd
  refine ⟨⟨?_, ?_⟩, ?_⟩
  · rcases he with rfl | rfl <;>
      simp only [pythonRecipeBuild, pythonRecipeRunPhase, hwd]
  · rw [pythonRecipeBuild]
    have hch : leftFilesChanged (.dir src) (.dir (src ++ [("data", d)])) = false :=
      leftFilesChanged_append_eq_false src [("data", d)] hw
    rw [hch]
    simp
  · simp [pythonRecipeBuild, pythonRecipeRunPhase, writeData, ensureDataDir,
      alistHasKey, leftFilesChanged, leftFilesChangedSubdirs,
      leftFilesChangedAt, dcmpLeftOnlyNonempty, dcmpDiffFilesNonempty,
      listedNames, ignoredName, defaultIgnores, shallowCmp, alistLookup]

/-- Witness for c3_amended at a concrete one-file recipe (no `data/` of
its own) with exit status 1 and an empty container write. -/
theorem c3_amended_witness :
    wfEntry (.dir [("generate.py", FsEntry.file [104] 7)]) = true ∧
    alistHasKey [("generate.py", FsEntry.file [104] 7)] "data" = false ∧
    ((pythonRecipeBuild [("generate.py", FsEntry.file [104] 7)] none false
        (.containerError 1) (.dir []) =
      (some ([("generate.py", FsEntry.file [104] 7)] ++ [("data", FsEntry.dir [])]),
        .raised) ∧
    pythonRecipeBuild [("generate.py", FsEntry.file [104] 7)]
        (some ([("generate.py", FsEntry.file [104] 7)] ++ [("data", FsEntry.dir [])]))
        false .ok (.dir []) =
      (some ([("generate.py", FsEntry.file [104] 7)] ++ [("data", FsEntry.dir [])]),
        .skippedUnchanged)) ∧
    pythonRecipeBuild [("data", FsEntry.dir [("f.txt", FsEntry.file [1] 5)])]
        (some [("data", FsEntry.dir [("f.txt", FsEntry.file [2] 9)])])
        false .ok (.dir [("f.txt", FsEntry.file [3] 11)]) =
      (some [("data", FsEntry.dir [("f.txt", FsEntry.file [3] 11)])],
        .finished)) :=
  ⟨by simp [wfEntry, wfList, distinctNames],
   by decide,
   c3_amended [("generate.py", FsEntry.file [104] 7)] 1 .ok (.dir []) (.dir [])
     (by simp [wfEntry, wfList, distinctNames]) (by decide) (Or.inl rfl)⟩

/-- C4: a container exit status other than 1 and 137 (here 2 and 139) is
caught by the `except docker.errors.ContainerError` block whose `match`
statement has no default case, so the exception is swallowed and build
returns normally; no failure reaches the scheduler, contradicting the
claim that a generic sandbox failure is surfaced.  Exit status 1, by
contrast, is re-raised.  The last conjunct propagates the bug through the
scheduler: with a recipe whose sandbox exits with status 2 (build returns
normally exactly when the outcome is not raised), build_all records the
recipe as built and the failed set stays empty. -/
theorem c4_other_exit_status_swallowed :
    (pythonRecipeBuild [("generate.py", FsEntry.file [104] 7)] none false
        (.containerError 2) (.dir [])).2 = .finished ∧
    (pythonRecipeBuild [("generate.py", FsEntry.file [104] 7)] none false
        (.containerError 139) (.dir [])).2 = .finished ∧
    (pythonRecipeBuild [("generate.py", FsEntry.file [104] 7)] none false
        (.containerError 1) (.dir [])).2 = .raised ∧
    buildAll
      [("Fetch:u", ArtifactM.fetch "u"),
       ("Recipe:a/1", ArtifactM.recipe "a" "1" "v" "v" [.fetchDep "u" "f"])]
      (computeDependenciesGraph
        [("Fetch:u", ArtifactM.fetch "u"),
         ("Recipe:a/1", ArtifactM.recipe "a" "1" "v" "v" [.fetchDep "u" "f"])])
      (fun aid _ => if aid = "Recipe:a/1" then
          decide ((pythonRecipeBuild [("generate.py", FsEntry.file [104] 7)]
            none false (.containerError 2) (.dir [])).2 ≠ BuildOutcome.raised)
        else true)
      false 1 =
      some ([.built "Fetch:u", .built "Recipe:a/1"], []) := by
  have h2 : (pythonRecipeBuild [("generate.py", FsEntry.file [104] 7)] none false
      (.containerError 2) (.dir [])).2 = .finished := by
    simp [pythonRecipeBuild, pythonRecipeRunPhase]
  refine ⟨h2, ?_, ?_, ?_⟩
  · simp [pythonRecipeBuild, pythonRecipeRunPhase]
  · simp [pythonRecipeBuild, pythonRecipeRunPhase]
  · simp only [h2]
    decide

/-- C7 counterexample: the claimed characterization of the change detector
fails in three ways.  (a) Two files with equal size and mtime but
different bytes are treated as equal by the shallow stat comparison, so a
bytewise difference is not reported.  (b) A path present only in the
source is not reported when its name is in filecmp's default ignore list
(here `__pycache__`).  (c) A source path (here `x/y`) absent from the
build tree is not reported when `x` is a directory on one side and a file
on the other (dircmp files it under common_funny and never recurses). -/
theorem c7_counterexample :
    (alistLookup [("f", FsEntry.file [1] 5)] "f" = some (.file [1] 5) ∧
      alistLookup [("f", FsEntry.file [2] 5)] "f" = some (.file [2] 5) ∧
      ([1] : List Nat) ≠ [2] ∧
      leftFilesChanged (.dir [("f", FsEntry.file [1] 5)])
        (.dir [("f", FsEntry.file [2] 5)]) = false) ∧
    leftFilesChanged (.dir [("__pycache__", FsEntry.dir [("x", FsEntry.file [1] 1)])])
      (.dir []) = false ∧
    leftFilesChanged (.dir [("x", FsEntry.dir [("y", FsEntry.file [1] 1)])])
      (.dir [("x", FsEntry.file [2] 2)]) = false := by
  refine ⟨⟨rfl, rfl, by decide, ?_⟩, ?_, ?_⟩ <;>
    simp [leftFilesChanged, leftFilesChangedSubdirs, leftFilesChangedAt,
      dcmpLeftOnlyNonempty, dcmpDiffFilesNonempty, listedNames, ignoredName,
      defaultIgnores, shallowCmp, alistLookup]

/-- C7 (amended): on well-formed trees the change detector reports changed
exactly when, somewhere along a chain of non-ignored names that are
directories in both trees, a non-ignored name present in the source
directory is absent from the build directory, or a file present in both
differs under the shallow comparison (equal (size, mtime) signature or
equal bytes mean unchanged).  Files present only in the build tree never
count; the comparison recurses only into directories common to both
trees. -/
theorem c7_amended (src bld : FsDir) (hw : wfEntry (.dir src) = true) :
    leftFilesChanged (.dir src) (.dir bld) = true ↔ specChanged src bld :=
  leftFilesChanged_iff_specChanged src bld hw

/-- Witness for c7_amended at a concrete pair of trees. -/
theorem c7_amended_witness :
    wfEntry (.dir [("a", FsEntry.file [1] 2)]) = true ∧
    (leftFilesChanged (.dir [("a", FsEntry.file [1] 2)]) (.dir []) = true ↔
      specChanged [("a", FsEntry.file [1] 2)] []) :=
  ⟨by simp [wfEntry, wfList, distinctNames],
    c7_amended [("a", FsEntry.file [1] 2)] [] (by simp [wfEntry, wfList, distinctNames])⟩

/-! ## Claim C8 -/

/-- C8 counterexample: normalize_url drops ports 80 and 443 regardless of
the scheme (and also an explicit port 0, which is falsy in Python), so an
explicit port 443 on an http URL and an explicit port 80 on an https URL
are NOT kept as the claim states. -/
theorem c8_port_not_scheme_dependent :
    normalizeUrl "http://example.com:443/x" = some "http://example.com/x" ∧
    normalizeUrl "https://example.com:80/x" = some "https://example.com/x" ∧
    normalizeUrl "https://example.com:0/x" = some "https://example.com/x" :=
  ⟨by decide, by decide, by decide⟩

/-- C8 (amended): normalize_url lowercases the scheme and host and omits
an explicit port exactly when it is 0, 80 or 443, irrespective of the
scheme; every other explicit port is kept.  The first conjunct
characterizes the netloc built by normalize_url from the parsed hostname
and port; the closed conjuncts exercise the full function: a non-default
port is kept while scheme and host are lowercased, and ports 443 (on
http) and 80 (on https) are dropped. -/
theorem c8_amended :
    (∀ (h : String) (p : Nat),
      (p = 0 ∨ p = 80 ∨ p = 443 →
        normalizeNetloc (some h) (some p) = asciiLowerStr h) ∧
      (¬(p = 0 ∨ p = 80 ∨ p = 443) →
        normalizeNetloc (some h) (some p) =
          asciiLowerStr h ++ ":" ++ toString p) ∧
      normalizeNetloc (some h) none = asciiLowerStr h) ∧
    normalizeUrl "HTTP://EXAMPLE.com:8080/p" =
      some "http://example.com:8080/p" ∧
    normalizeUrl "http://example.com:443/p" = some "http://example.com/p" ∧
    normalizeUrl "https://example.com:80/p" = some "https://example.com/p" := by
  refine ⟨fun h p => ⟨?_, ?_, ?_⟩, by decide, by decide, by decide⟩
  · intro hp
    rcases hp with rfl | rfl | rfl <;> simp [normalizeNetloc]
  · intro hp
    push_neg at hp
    simp [normalizeNetloc, hp.1, hp.2.1, hp.2.2]
  · simp [normalizeNetloc]

/-- Witness for c8_amended: both port branches at concrete inputs. -/
theorem c8_amended_witness :
    normalizeNetloc (some "EXAMPLE.com") (some 443) =
      asciiLowerStr "EXAMPLE.com" ∧
    normalizeNetloc (some "EXAMPLE.com") (some 8080) =
      asciiLowerStr "EXAMPLE.com" ++ ":" ++ toString 8080 :=
  ⟨(c8_amended.1 "EXAMPLE.com" 443).1 (Or.inr (Or.inr rfl)),
   (c8_amended.1 "EXAMPLE.com" 8080).2.1 (by decide)⟩

theorem countKey_append_single (reg : Registry) (k : String) (a : ArtifactM) :
    countKey (reg ++ [(k, a)]) k = countKey reg k + 1 := by
  simp [countKey, List.filter_append]

theorem countKey_eq_zero_of_not_hasKey {reg : Registry} {k : String}
    (h : alistHasKey reg k = false) : countKey reg k = 0 := by
  induction reg with
  | nil => simp [countKey]
  | cons hd tl ih =>
    obtain ⟨k', a⟩ := hd
    rw [alistHasKey, Bool.or_eq_false_iff] at h
    have hk : k' ≠ k := by simpa using h.1
    simp [countKey, List.filter, hk] at ih ⊢
    exact ih h.2

theorem countKey_pos_of_hasKey {reg : Registry} {k : String}
    (h : alistHasKey reg k = true) : 1 ≤ countKey reg k := by
  induction reg with
  | nil => simp [alistHasKey] at h
  | cons hd tl ih =>
    obtain ⟨k', a⟩ := hd
    rw [alistHasKey, Bool.or_eq_true] at h
    by_cases hk : k' = k
    · simp [countKey, List.filter, hk]
    · rcases h with h | h
      · exact absurd (by simpa using h) hk
      · simpa [countKey, List.filter, hk] using ih h

theorem alistHasKey_append_single (reg : Registry) (k : String)
    (a : ArtifactM) : alistHasKey (reg ++ [(k, a)]) k = true := by
  induction reg with
  | nil => simp [alistHasKey]
  | cons hd tl ih =>
    obtain ⟨k', a'⟩ := hd
    rw [List.cons_append, alistHasKey, Bool.or_eq_true]
    exact Or.inr ih

theorem alistLookup_append_single_of_not_hasKey {reg : Registry} {k : String}
    (a : ArtifactM) (h : alistHasKey reg k = false) :
    alistLookup (reg ++ [(k, a)]) k = some a := by
  induction reg with
  | nil => simp [alistLookup]
  | cons hd tl ih =>
    obtain ⟨k', a'⟩ := hd
    rw [alistHasKey, Bool.or_eq_false_iff] at h
    have hk : k' ≠ k := by simpa using h.1
    rw [List.cons_append, alistLookup]
    simp only [hk, if_false]
    exact ih h.2

/-- Unfolding of register_fetch_dependency when the url normalizes. -/
theorem registerFetchDependency_eq (reg : Registry) (url : String)
    (f : Option String) (n : String) (h : normalizeUrl url = some n) :
    registerFetchDependency reg url f = some
      ((if alistHasKey reg ("Fetch:" ++ n) then reg
        else reg ++ [("Fetch:" ++ n, ArtifactM.fetch n)]),
       .fetchDep n (match f with | some x => x | none => afterLastSlash n)) := by
  simp [registerFetchDependency, h]

/-- C6: two fetch dependencies whose URLs normalize to the same string
yield dependencies with the same artifact id; after registering both
(into any registry that does not already duplicate that key), exactly one
Fetch entry exists in the registry under that id, both dependencies
resolve to that same single artifact, and the cache file path of a Fetch
for the normalized URL is fetch_cache/<first 24 hex digits of the SHA1 of
the URL> under the build folder. -/
theorem c6_fetch_dedup (reg : Registry) (u1 u2 : String) (f1 f2 : Option String)
    (n bf : String)
    (h1 : normalizeUrl u1 = some n) (h2 : normalizeUrl u2 = some n)
    (hc : countKey reg ("Fetch:" ++ n) ≤ 1) :
    ∃ reg1 d1 reg2 d2,
      registerFetchDependency reg u1 f1 = some (reg1, d1) ∧
      registerFetchDependency reg1 u2 f2 = some (reg2, d2) ∧
      dependencyArtifactId d1 = "Fetch:" ++ n ∧
      dependencyArtifactId d2 = dependencyArtifactId d1 ∧
      countKey reg2 ("Fetch:" ++ n) = 1 ∧
      (∃ a, alistLookup reg2 (dependencyArtifactId d1) = some a ∧
        alistLookup reg2 (dependencyArtifactId d2) = some a) ∧
      artifactBuildPath bf (.fetch n) =
        osPathJoin (osPathJoin bf "fetch_cache")
          ⟨(sha1Hex (utf8Encode n.data)).data.take 24⟩ := by
  by_cases hk : alistHasKey reg ("Fetch:" ++ n) = true
  · refine ⟨reg, .fetchDep n (match f1 with | some x => x | none => afterLastSlash n),
      reg, .fetchDep n (match f2 with | some x => x | none => afterLastSlash n),
      ?_, ?_, rfl, rfl, ?_, ?_, rfl⟩
    · rw [registerFetchDependency_eq reg u1 f1 n h1, hk]
      simp
    · rw [registerFetchDependency_eq reg u2 f2 n h2, hk]
      simp
    · exact le_antisymm hc (countKey_pos_of_hasKey hk)
    · obtain ⟨a, ha⟩ := alistLookup_isSome_of_hasKey hk
      exact ⟨a, ha, ha⟩
  · rw [Bool.not_eq_true] at hk
    refine ⟨reg ++ [("Fetch:" ++ n, ArtifactM.fetch n)],
      .fetchDep n (match f1 with | some x => x | none => afterLastSlash n),
      reg ++ [("Fetch:" ++ n, ArtifactM.fetch n)],
      .fetchDep n (match f2 with | some x => x | none => afterLastSlash n),
      ?_, ?_, rfl, rfl, ?_, ?_, rfl⟩
    · rw [registerFetchDependency_eq reg u1 f1 n h1, hk]
      simp
    · rw [registerFetchDependency_eq _ u2 f2 n h2,
        alistHasKey_append_single reg ("Fetch:" ++ n) (ArtifactM.fetch n)]
      simp
    · rw [countKey_append_single, countKey_eq_zero_of_not_hasKey hk]
    · exact ⟨ArtifactM.fetch n,
        alistLookup_append_single_of_not_hasKey _ hk,
        alistLookup_append_single_of_not_hasKey _ hk⟩

/-- Witness for c6_fetch_dedup: the spec's dedup scenario URLs, which
normalize to the same string, registered into the empty registry. -/
theorem c6_fetch_dedup_witness :
    ∃ reg1 d1 reg2 d2,
      registerFetchDependency [] "https://Example.com:443/a/?b=2&a=1" none =
        some (reg1, d1) ∧
      registerFetchDependency reg1 "https://example.com/a?a=1&b=2" none =
        some (reg2, d2) ∧
      dependencyArtifactId d1 = "Fetch:" ++ "https://example.com/a?a=1&b=2" ∧
      dependencyArtifactId d2 = dependencyArtifactId d1 ∧
      countKey reg2 ("Fetch:" ++ "https://example.com/a?a=1&b=2") = 1 ∧
      (∃ a, alistLookup reg2 (dependencyArtifactId d1) = some a ∧
        alistLookup reg2 (dependencyArtifactId d2) = some a) ∧
      artifactBuildPath "/build" (.fetch "https://example.com/a?a=1&b=2") =
        osPathJoin (osPathJoin "/build" "fetch_cache")
          ⟨(sha1Hex (utf8Encode "https://example.com/a?a=1&b=2".data)).data.take 24⟩ :=
  c6_fetch_dedup [] "https://Example.com:443/a/?b=2&a=1"
    "https://example.com/a?a=1&b=2" none none
    "https://example.com/a?a=1&b=2" "/build" (by decide) (by decide)
    (by decide)

/-! ## Claims C9 and C5 -/

/-- C9: the versions_schema and Recipe.__init__ disagree.  The schema
rejects a version object carrying folder_alias (its optional extra key is
artifact_folder and additionalProperties is false), so a versions.json
declaring folder_alias makes the whole recipe be skipped; yet the
constructor is the code that would honour folder_alias, while the
validated artifact_folder key is read nowhere and the build subfolder
falls back to folder. -/
theorem c9_folder_alias_schema_mismatch :
    validVersionObject [("folder", "v1"), ("folder_alias", "w")] = false ∧
    readRecipes [⟨"r", some [("v1", [("folder", "v1"), ("folder_alias", "w")])],
      [("v1", ⟨"python", []⟩)]⟩] [] = some [] ∧
    validVersionObject [("folder", "v1"), ("artifact_folder", "w")] = true ∧
    recipeInit "r" "t" [("folder", "v1"), ("folder_alias", "w")] [] =
      .recipe "r" "t" "v1" "w" [] ∧
    recipeInit "r" "t" [("folder", "v1"), ("artifact_folder", "w")] [] =
      .recipe "r" "t" "v1" "v1" [] :=
  ⟨by decide, by decide, by decide, by decide, by decide⟩

/-- C5 counterexample: a build dependency naming a recipe_name/version
pair for which no recipe was loaded leaves a dangling artifact_id: after
read_recipes the registry holds only the declaring recipe and the
dependency's id is not a key. -/
theorem c5_dangling_build_dep :
    readRecipes [⟨"a", some [("1", [("folder", "v1")])],
        [("v1", ⟨"python", [RawDep.build "b" "1"]⟩)]⟩] [] =
      some [("Recipe:a/1",
        .recipe "a" "1" "v1" "v1" [.recipeDep "b" "1"])] ∧
    dependencyArtifactId (.recipeDep "b" "1") = "Recipe:b/1" ∧
    alistHasKey [("Recipe:a/1",
        ArtifactM.recipe "a" "1" "v1" "v1" [.recipeDep "b" "1"])] "Recipe:b/1"
      = false :=
  ⟨by decide, by decide, by decide⟩

theorem alistHasKey_append_left_mono {α : Type} {l : List (String × α)}
    {k : String} (h : alistHasKey l k = true) (l2 : List (String × α)) :
    alistHasKey (l ++ l2) k = true := by
  induction l with
  | nil => simp [alistHasKey] at h
  | cons hd tl ih =>
    obtain ⟨k', v⟩ := hd
    rw [alistHasKey, Bool.or_eq_true] at h
    rw [List.cons_append, alistHasKey, Bool.or_eq_true]
    rcases h with h | h
    · exact Or.inl h
    · exact Or.inr (ih h)

theorem alistHasKey_dictInsert_mono {α : Type} {l : List (String × α)}
    {k k2 : String} {v : α} (h : alistHasKey l k = true) :
    alistHasKey (dictInsert l k2 v) k = true := by
  induction l with
  | nil => simp [alistHasKey] at h
  | cons hd tl ih =>
    obtain ⟨k', v'⟩ := hd
    rw [alistHasKey, Bool.or_eq_true] at h
    rw [dictInsert]
    by_cases hk : k' = k2
    · rw [if_pos hk, alistHasKey, Bool.or_eq_true]
      rcases h with h | h
      · left
        have hkk : k' = k := by simpa using h
        simp [← hk, hkk]
      · exact Or.inr h
    · rw [if_neg hk, alistHasKey, Bool.or_eq_true]
      rcases h with h | h
      · exact Or.inl h
      · exact Or.inr (ih h)

theorem mem_dictInsert {α : Type} {l : List (String × α)} {k k2 : String}
    {a v : α} (h : (k, a) ∈ dictInsert l k2 v) :
    (k, a) ∈ l ∨ (k = k2 ∧ a = v) := by
  induction l with
  | nil =>
    rw [dictInsert] at h
    rcases List.mem_singleton.1 h with h2
    injection h2 with h3 h4
    exact Or.inr ⟨h3, h4⟩
  | cons hd tl ih =>
    obtain ⟨k', v'⟩ := hd
    rw [dictInsert] at h
    by_cases hk : k' = k2
    · rw [if_pos hk] at h
      rcases List.mem_cons.1 h with h2 | h2
      · injection h2 with h3 h4
        exact Or.inr ⟨h3, h4⟩
      · exact Or.inl (List.mem_cons_of_mem _ h2)
    · rw [if_neg hk] at h
      rcases List.mem_cons.1 h with h2 | h2
      · exact Or.inl (List.mem_cons.2 (Or.inl h2))
      · rcases ih h2 with h3 | h3
        · exact Or.inl (List.mem_cons_of_mem _ h3)
        · exact Or.inr h3

theorem fetchId_ne_recipeId (u x y z : String) :
    "Fetch:" ++ u ≠ "Recipe:" ++ x ++ y ++ z := by
  intro h
  have h2 := congrArg String.data h
  rw [String.data_append, String.data_append, String.data_append,
    String.data_append] at h2
  simp at h2

/-- What register_fetch_dependency does to the registry: keys are
preserved, every new entry is a Fetch keyed by its id, and the returned
dependency's artifact id is a key afterwards. -/
theorem registerFetchDependency_spec {reg : Registry} {url : String}
    {f : Option String} {reg2 : Registry} {d : DependencyM}
    (h : registerFetchDependency reg url f = some (reg2, d)) :
    (∀ k, alistHasKey reg k = true → alistHasKey reg2 k = true) ∧
    (∀ p, p ∈ reg2 → p ∈ reg ∨
      ∃ u, p = ("Fetch:" ++ u, ArtifactM.fetch u)) ∧
    (∃ u fn, d = DependencyM.fetchDep u fn ∧
      alistHasKey reg2 ("Fetch:" ++ u) = true) := by
  cases hn : normalizeUrl url with
  | none => simp [registerFetchDependency, hn] at h
  | some n =>
    rw [registerFetchDependency_eq reg url f n hn] at h
    injection h with h2
    injection h2 with h3 h4
    subst h3
    subst h4
    by_cases hk : alistHasKey reg ("Fetch:" ++ n) = true
    · rw [if_pos hk]
      refine ⟨fun k hkk => hkk, fun p hp => Or.inl hp, n, _, rfl, hk⟩
    · rw [Bool.not_eq_true] at hk
      rw [if_neg (by simp [hk])]
      refine ⟨fun k hkk => alistHasKey_append_left_mono hkk _, fun p hp => ?_,
        n, _, rfl, alistHasKey_append_single reg _ _⟩
      rcases List.mem_append.1 hp with h5 | h5
      · exact Or.inl h5
      · exact Or.inr ⟨n, List.mem_singleton.1 h5⟩

/-- What the dependency-registration loop does: keys are preserved, every
new entry is a Fetch keyed by its id, and every returned fetch
dependency's artifact id is a key afterwards. -/
theorem processDeps_spec : ∀ (ds : List RawDep) {reg reg2 : Registry}
    {deps : List DependencyM},
    processDeps reg ds = some (reg2, deps) →
    (∀ k, alistHasKey reg k = true → alistHasKey reg2 k = true) ∧
    (∀ p, p ∈ reg2 → p ∈ reg ∨
      ∃ u, p = ("Fetch:" ++ u, ArtifactM.fetch u)) ∧
    (∀ d ∈ deps, ∀ u fn, d = DependencyM.fetchDep u fn →
      alistHasKey reg2 ("Fetch:" ++ u) = true) := by
  intro ds
  induction ds with
  | nil =>
    intro reg reg2 deps h
    rw [processDeps] at h
    injection h with h2
    injection h2 with h3 h4
    subst h3
    subst h4
    exact ⟨fun k hk => hk, fun p hp => Or.inl hp, by simp⟩
  | cons hd tl ih =>
    intro reg reg2 deps h
    cases hd with
    | fetch url fn =>
      rw [processDeps] at h
      simp only [bind, pure, Option.bind_eq_some, Option.some.injEq,
        Prod.mk.injEq] at h
      obtain ⟨r1, hr1, r2, hr2, h3, h4⟩ := h
      subst h3
      subst h4
      obtain ⟨m1, e1, ⟨u0, fn0, hd0, hk0⟩⟩ := registerFetchDependency_spec hr1
      obtain ⟨m2, e2, f2⟩ := ih hr2
      refine ⟨fun k hk => m2 k (m1 k hk), fun p hp => ?_, fun d hd u fn2 hdf => ?_⟩
      · rcases e2 p hp with h5 | h5
        · exact e1 p h5
        · exact Or.inr h5
      · rcases List.mem_cons.1 hd with h5 | h5
        · subst h5
          rw [hd0] at hdf
          injection hdf with hu hfn
          subst hu
          exact m2 _ hk0
        · exact f2 d h5 u fn2 hdf
    | build rn v =>
      rw [processDeps] at h
      simp only [bind, pure, Option.bind_eq_some, Option.some.injEq,
        Prod.mk.injEq] at h
      obtain ⟨r2, hr2, h3, h4⟩ := h
      subst h3
      subst h4
      obtain ⟨m2, e2, f2⟩ := ih hr2
      refine ⟨m2, e2, fun d hd u fn2 hdf => ?_⟩
      rcases List.mem_cons.1 hd with h5 | h5
      · subst h5
        simp [registerRecipeDependency] at hdf
      · exact f2 d h5 u fn2 hdf

/-- The per-version loop preserves the registry invariants and never
removes keys. -/
theorem processVersions_inv : ∀ (vs : List (String × List (String × String)))
    {rn : String} {files : List (String × RawRecipeJson)} {reg reg2 : Registry},
    processVersions rn files reg vs = some reg2 →
    RegKeysId reg → RegFetchDepsPresent reg →
    (RegKeysId reg2 ∧ RegFetchDepsPresent reg2 ∧
      ∀ k, alistHasKey reg k = true → alistHasKey reg2 k = true) := by
  intro vs
  induction vs with
  | nil =>
    intro rn files reg reg2 h hA hB
    rw [processVersions] at h
    injection h with h2
    subst h2
    exact ⟨hA, hB, fun k hk => hk⟩
  | cons hd tl ih =>
    intro rn files reg reg2 h hA hB
    obtain ⟨tag, obj⟩ := hd
    rw [processVersions] at h
    split at h
    · exact ih h hA hB
    · rename_i rj hf
      split at h
      · rename_i hv
        simp only [bind, Option.bind_eq_some] at h
        obtain ⟨r, hr, hrest⟩ := h
        obtain ⟨mono, entries, depsOk⟩ := processDeps_spec rj.dependencies hr
        have hA2 : RegKeysId r.1 := by
          intro p hp
          rcases entries p hp with h5 | ⟨u, h5⟩
          · exact hA p h5
          · subst h5
            rfl
        have hB2 : RegFetchDepsPresent r.1 := by
          intro p hp d hd u fn hdf
          rcases entries p hp with h5 | ⟨u2, h5⟩
          · exact mono _ (hB p h5 d hd u fn hdf)
          · subst h5
            simp [artifactDeps] at hd
        set rec := recipeInit rn tag obj r.2 with hrec
        have hA3 : RegKeysId (dictInsert r.1 (artifactId rec) rec) := by
          intro p hp
          obtain ⟨pk, pa⟩ := p
          rcases mem_dictInsert hp with h5 | ⟨h5, h6⟩
          · exact hA2 _ h5
          · subst h5
            subst h6
            rfl
        have hB3 : RegFetchDepsPresent (dictInsert r.1 (artifactId rec) rec) := by
          intro p hp d hd u fn hdf
          obtain ⟨pk, pa⟩ := p
          rcases mem_dictInsert hp with h5 | ⟨h5, h6⟩
          · exact alistHasKey_dictInsert_mono (hB2 _ h5 d hd u fn hdf)
          · subst h6
            have hdeps : artifactDeps rec = r.2 := by
              rw [hrec]
              rfl
            rw [hdeps] at hd
            have := depsOk d hd u fn hdf
            subst hdf
            exact alistHasKey_dictInsert_mono this
        obtain ⟨hA4, hB4, mono4⟩ := ih hrest hA3 hB3
        refine ⟨hA4, hB4, fun k hk =>
          mono4 k (alistHasKey_dictInsert_mono (mono k hk))⟩
      · exact ih h hA hB

/-- read_recipes preserves the registry invariants. -/
theorem readRecipes_inv : ∀ (dirs : List RecipeDirM) {reg reg2 : Registry},
    readRecipes dirs reg = some reg2 →
    RegKeysId reg → RegFetchDepsPresent reg →
    (RegKeysId reg2 ∧ RegFetchDepsPresent reg2) := by
  intro dirs
  induction dirs with
  | nil =>
    intro reg reg2 h hA hB
    rw [readRecipes] at h
    injection h with h2
    subst h2
    exact ⟨hA, hB⟩
  | cons d rest ih =>
    intro reg reg2 h hA hB
    rw [readRecipes] at h
    split at h
    · exact ih h hA hB
    · rename_i vs hv
      split at h
      · rename_i hval
        simp only [bind, Option.bind_eq_some] at h
        obtain ⟨r, hr, hrest⟩ := h
        obtain ⟨hA2, hB2, _⟩ := processVersions_inv vs hr hA hB
        exact ih hrest hA2 hB2
      · exact ih h hA hB

/-- C5 (amended): after read_recipes returns, every FETCH dependency's
artifact_id is a key of the registry; a BUILD dependency's artifact_id
"Recipe:<name>/<version>" is a key exactly when a recipe with that id was
loaded — a build dependency naming a pair for which no recipe was loaded
is left dangling. -/
theorem c5_amended (dirs : List RecipeDirM) (reg : Registry)
    (h : readRecipes dirs [] = some reg) :
    (∀ p ∈ reg, ∀ d ∈ artifactDeps p.2, ∀ u fn,
        d = DependencyM.fetchDep u fn →
        alistHasKey reg (dependencyArtifactId d) = true) ∧
    (∀ rn v, alistHasKey reg ("Recipe:" ++ rn ++ "/" ++ v) = true ↔
        ∃ p ∈ reg, isRecipeArtifact p.2 = true ∧
          artifactId p.2 = "Recipe:" ++ rn ++ "/" ++ v) := by
  obtain ⟨hA, hB⟩ := readRecipes_inv dirs h (by intro p hp; simp at hp)
    (by intro p hp; simp at hp)
  constructor
  · intro p hp d hd u fn hdf
    have := hB p hp d hd u fn hdf
    subst hdf
    exact this
  · intro rn v
    constructor
    · intro hk
      obtain ⟨a, ha⟩ := alistLookup_isSome_of_hasKey hk
      have hmem := alistLookup_mem ha
      have hid := hA _ hmem
      cases a with
      | fetch u =>
          rw [show artifactId (ArtifactM.fetch u) = "Fetch:" ++ u from rfl] at hid
          exact absurd hid.symm (fetchId_ne_recipeId u rn "/" v)
      | recipe n2 v2 s2 b2 ds2 =>
          exact ⟨_, hmem, rfl, hid.symm⟩
    · rintro ⟨p, hp, hrec, hid⟩
      have hkey := hA p hp
      rw [alistHasKey_iff_mem]
      rw [← hid, ← hkey]
      exact List.mem_map_of_mem Prod.fst hp

/-- Witness for c5_amended at a concrete loaded registry with one fetch
and one dangling build dependency. -/
theorem c5_amended_witness :
    (∀ p ∈ ([("Recipe:a/1",
        ArtifactM.recipe "a" "1" "v1" "v1" [.recipeDep "b" "1"])] : Registry),
      ∀ d ∈ artifactDeps p.2, ∀ u fn, d = DependencyM.fetchDep u fn →
        alistHasKey [("Recipe:a/1",
          ArtifactM.recipe "a" "1" "v1" "v1" [.recipeDep "b" "1"])]
          (dependencyArtifactId d) = true) ∧
    (∀ rn v,
      alistHasKey [("Recipe:a/1",
          ArtifactM.recipe "a" "1" "v1" "v1" [.recipeDep "b" "1"])]
        ("Recipe:" ++ rn ++ "/" ++ v) = true ↔
      ∃ p ∈ ([("Recipe:a/1",
          ArtifactM.recipe "a" "1" "v1" "v1" [.recipeDep "b" "1"])] : Registry),
        isRecipeArtifact p.2 = true ∧
        artifactId p.2 = "Recipe:" ++ rn ++ "/" ++ v) :=
  c5_amended
    [⟨"a", some [("1", [("folder", "v1")])],
      [("v1", ⟨"python", [RawDep.build "b" "1"]⟩)]⟩]
    [("Recipe:a/1", ArtifactM.recipe "a" "1" "v1" "v1" [.recipeDep "b" "1"])]
    (by decide)

theorem computeDependenciesGraph_edges (artifacts : Registry) :
    (computeDependenciesGraph artifacts).edges = graphEdges artifacts := by
  suffices h : ∀ (es : List (String × String)) (t0 : TopoSorter),
      (es.foldl (fun t e => topoAdd t e.1 e.2) t0).edges = t0.edges ++ es by
    simpa using h (graphEdges artifacts) ⟨[], []⟩
  intro es
  induction es with
  | nil => intro t0; simp
  | cons e rest ih =>
    intro t0
    rw [List.foldl_cons, ih]
    simp [topoAdd]

theorem processOne_effects {artifacts : Registry}
    {buildOk : String → Bool → Bool} {override : Bool} {st : SchedState}
    {aid : String} {st2 : SchedState}
    (h : processOne artifacts buildOk override st aid = some st2) :
    (∃ ev, eventId ev = aid ∧ st2.trace = st.trace ++ [ev]) ∧
    st2.doneIds = st.doneIds ++ [aid] ∧ st2.yielded = st.yielded := by
  unfold processOne at h
  split at h
  · cases h
  · split at h
    · split at h
      · injection h with h2
        subst h2
        exact ⟨⟨.skippedDepFailed aid, rfl, rfl⟩, rfl, rfl⟩
      · injection h with h2
        subst h2
        unfold runState
        split
        · exact ⟨⟨.built aid, rfl, rfl⟩, rfl, rfl⟩
        · exact ⟨⟨.buildFailed aid, rfl, rfl⟩, rfl, rfl⟩
    · injection h with h2
      subst h2
      unfold runState
      split
      · exact ⟨⟨.built aid, rfl, rfl⟩, rfl, rfl⟩
      · exact ⟨⟨.buildFailed aid, rfl, rfl⟩, rfl, rfl⟩

theorem get?_append_left {α : Type} (l l2 : List α) (n : Nat)
    (h : n < l.length) : (l ++ l2).get? n = l.get? n := by
  rw [List.get?_append h]

theorem traceClosed_append {edges : List (String × String)}
    {trace : List BuildEvent} {ev : BuildEvent}
    (hc : TraceClosed edges trace)
    (hnew : ∀ p, (eventId ev, p) ∈ edges →
      ∃ k e2, trace.get? k = some e2 ∧ eventId e2 = p) :
    TraceClosed edges (trace ++ [ev]) := by
  intro j e hj p hp
  by_cases hlt : j < trace.length
  · rw [get?_append_left _ _ _ hlt] at hj
    obtain ⟨k, hk, e2, he2, hid⟩ := hc j e hj p hp
    exact ⟨k, hk, e2, by rw [get?_append_left _ _ _ (lt_trans hk hlt)]; exact he2,
      hid⟩
  · have hj2 : j = trace.length := by
      have := List.get?_eq_some.1 hj
      obtain ⟨hlen, _⟩ := this
      simp at hlen
      omega
    subst hj2
    rw [List.get?_concat_length] at hj
    injection hj with hj
    subst hj
    obtain ⟨k, e2, he2, hid⟩ := hnew p hp
    have hklt : k < trace.length := by
      obtain ⟨hlen, _⟩ := List.get?_eq_some.1 he2
      exact hlen
    exact ⟨k, hklt, e2, by rw [get?_append_left _ _ _ hklt]; exact he2, hid⟩

theorem doneInTrace_suffix {st : SchedState} {aid : String} {ev : BuildEvent}
    (hd : DoneInTrace st) (hev : eventId ev = aid) :
    DoneInTrace { st with doneIds := st.doneIds ++ [aid],
                          trace := st.trace ++ [ev] } := by
  intro d hdm
  simp only [List.mem_append, List.mem_singleton] at hdm
  rcases hdm with hdm | hdm
  · obtain ⟨k, e2, he2, hid⟩ := hd d hdm
    have hklt : k < st.trace.length := (List.get?_eq_some.1 he2).1
    exact ⟨k, e2, by rw [get?_append_left _ _ _ hklt]; exact he2, hid⟩
  · subst hdm
    exact ⟨st.trace.length, ev, List.get?_concat_length _ _, hev⟩

theorem processBatch_inv {artifacts : Registry}
    {buildOk : String → Bool → Bool} {override : Bool}
    (edges : List (String × String)) :
    ∀ (batch : List String) {st st2 : SchedState},
    processBatch artifacts buildOk override st batch = some st2 →
    TraceClosed edges st.trace → DoneInTrace st →
    (∀ aid ∈ batch, ∀ p, (aid, p) ∈ edges → p ∈ st.doneIds) →
    TraceClosed edges st2.trace ∧ DoneInTrace st2 ∧
      (∀ d ∈ st.doneIds, d ∈ st2.doneIds) := by
  intro batch
  induction batch with
  | nil =>
    intro st st2 h hc hd hb
    rw [processBatch] at h
    injection h with h2
    subst h2
    exact ⟨hc, hd, fun d hdm => hdm⟩
  | cons aid rest ih =>
    intro st st2 h hc hd hb
    rw [processBatch] at h
    simp only [bind, Option.bind_eq_some] at h
    obtain ⟨st1, h1, hrest⟩ := h
    obtain ⟨⟨ev, hev, htr⟩, hdone, _⟩ := processOne_effects h1
    have hc1 : TraceClosed edges st1.trace := by
      rw [htr]
      refine traceClosed_append hc (fun p hp => ?_)
      rw [hev] at hp
      exact hd p (hb aid (List.mem_cons_self _ _) p hp)
    have hd1 : DoneInTrace st1 := by
      have := doneInTrace_suffix hd hev
      intro d hdm
      rw [hdone] at hdm
      rw [htr]
      exact this d hdm
    have hb1 : ∀ a2 ∈ rest, ∀ p, (a2, p) ∈ edges → p ∈ st1.doneIds := by
      intro a2 ha2 p hp
      rw [hdone]
      exact List.mem_append_left _ (hb a2 (List.mem_cons_of_mem _ ha2) p hp)
    obtain ⟨hc2, hd2, hsub⟩ := ih hrest hc1 hd1 hb1
    refine ⟨hc2, hd2, fun d hdm => hsub d ?_⟩
    rw [hdone]
    exact List.mem_append_left _ hdm

theorem readyNodes_preds {t : TopoSorter} {st : SchedState} {aid : String}
    (h : aid ∈ readyNodes t st) :
    ∀ p, (aid, p) ∈ t.edges → p ∈ st.doneIds := by
  intro p hp
  obtain ⟨_, hcond⟩ := List.mem_filter.1 h
  rw [Bool.and_eq_true] at hcond
  have hall := List.all_eq_true.1 hcond.2
  have hpm : p ∈ predsOf t aid := by
    simp only [predsOf]
    exact List.mem_map_of_mem Prod.snd (List.mem_filter.2 ⟨hp, by simp⟩)
  have := hall p hpm
  exact List.mem_of_elem_eq_true (by simpa using this)

theorem schedLoop_inv {artifacts : Registry}
    {buildOk : String → Bool → Bool} {override : Bool} {t : TopoSorter} :
    ∀ (fuel : Nat) {st st2 : SchedState},
    schedLoop artifacts buildOk override t fuel st = some st2 →
    TraceClosed t.edges st.trace → DoneInTrace st →
    TraceClosed t.edges st2.trace := by
  intro fuel
  induction fuel with
  | zero =>
    intro st st2 h hc hd
    rw [schedLoop] at h
    split at h
    · injection h with h2
      subst h2
      exact hc
    · cases h
  | succ fuel ih =>
    intro st st2 h hc hd
    rw [schedLoop] at h
    split at h
    · injection h with h2
      subst h2
      exact hc
    · simp only [bind, Option.bind_eq_some] at h
      obtain ⟨st1, h1, hrest⟩ := h
      have hb : ∀ aid ∈ readyNodes t st, ∀ p, (aid, p) ∈ t.edges →
          p ∈ ({ st with yielded := st.yielded ++ readyNodes t st } :
            SchedState).doneIds := by
        intro aid ha p hp
        exact readyNodes_preds ha p hp
      obtain ⟨hc1, hd1, _⟩ := processBatch_inv t.edges (readyNodes t st) h1 hc hd hb
      exact ih hrest hc1 hd1

/-- The final trace of build_all is closed under direct dependency
edges. -/
theorem buildAll_traceClosed {artifacts : Registry} {t : TopoSorter}
    {buildOk : String → Bool → Bool} {override : Bool} {numJobs : Nat}
    {trace : List BuildEvent} {failed : List String}
    (h : buildAll artifacts t buildOk override numJobs =
      some (trace, failed)) :
    TraceClosed t.edges trace := by
  unfold buildAll at h
  split at h
  · cases h
  · split at h
    · cases h
    · rename_i st hst
      injection h with h2
      have htr := congrArg Prod.fst h2
      simp only at htr
      rw [← htr]
      exact schedLoop_inv _ hst (fun j e hj => by simp at hj)
        (fun d hdm => by simp at hdm)

/-- Positions of D strictly before i in the trace, together with the
closure of traces under the transitive dependency relation. -/
theorem traceClosed_transGen {edges : List (String × String)}
    {trace : List BuildEvent} (hc : TraceClosed edges trace) {D : String} :
    ∀ {a : String}, Relation.TransGen (fun x y => (x, y) ∈ edges) a D →
    ∀ i e, trace.get? i = some e → eventId e = a →
    ∃ j, j < i ∧ ∃ e2, trace.get? j = some e2 ∧ eventId e2 = D := by
  intro a h
  induction h using Relation.TransGen.head_induction_on with
  | base hr =>
    intro i e hi hid
    exact hc i e hi D (by rw [hid]; exact hr)
  | ih hr htg IH =>
    intro i e hi hid
    rename_i c
    obtain ⟨k, hk, e2, he2, hid2⟩ := hc i e hi c (by rw [hid]; exact hr)
    obtain ⟨j, hj, e3, he3, hid3⟩ := IH k e2 he2 hid2
    exact ⟨j, lt_trans hj hk, e3, he3, hid3⟩

/-! ## Claims C1, C2, C10 -/

/-- C1: in any completed run of build_all on the graph computed by
compute_dependencies_graph, whenever an artifact's build is invoked (its
event is built or buildFailed) at trace position i, every transitive
dependency of that artifact was settled — built, failed while building,
or classified failed through a failed dependency — at some earlier trace
position. -/
theorem c1_deps_settled_before_build (artifacts : Registry)
    (buildOk : String → Bool → Bool) (override : Bool) (numJobs : Nat)
    (trace : List BuildEvent) (failed : List String)
    (h : buildAll artifacts (computeDependenciesGraph artifacts) buildOk
      override numJobs = some (trace, failed))
    (i : Nat) (e : BuildEvent) (hi : trace.get? i = some e)
    (hinv : eventIsInvoke e = true) (D : String)
    (hdep : Relation.TransGen (edgeRel artifacts) (eventId e) D) :
    ∃ j, j < i ∧ ∃ e2, trace.get? j = some e2 ∧ eventId e2 = D := by
  have hc : TraceClosed (graphEdges artifacts) trace := by
    have h2 := buildAll_traceClosed h
    rwa [computeDependenciesGraph_edges artifacts] at h2
  exact traceClosed_transGen hc hdep i e hi rfl

/-- Witness for c1_deps_settled_before_build: a fetch, a recipe using it
and a recipe depending on that recipe; the second recipe's build (trace
position 2) is preceded by both its transitive dependencies. -/
theorem c1_deps_settled_before_build_witness :
    ∃ j, j < 2 ∧ ∃ e2,
      ([.built "Fetch:u", .built "Recipe:a/1", .built "Recipe:b/1"] :
        List BuildEvent).get? j = some e2 ∧ eventId e2 = "Fetch:u" :=
  c1_deps_settled_before_build
    [("Fetch:u", ArtifactM.fetch "u"),
     ("Recipe:a/1", ArtifactM.recipe "a" "1" "v" "v" [.fetchDep "u" "f"]),
     ("Recipe:b/1", ArtifactM.recipe "b" "1" "v" "v" [.recipeDep "a" "1"])]
    (fun _ _ => true) false 1
    [.built "Fetch:u", .built "Recipe:a/1", .built "Recipe:b/1"] []
    (by decide) 2 (.built "Recipe:b/1") (by decide) (by decide) "Fetch:u"
    (@Relation.TransGen.head String
      (edgeRel [("Fetch:u", ArtifactM.fetch "u"),
        ("Recipe:a/1", ArtifactM.recipe "a" "1" "v" "v" [.fetchDep "u" "f"]),
        ("Recipe:b/1", ArtifactM.recipe "b" "1" "v" "v" [.recipeDep "a" "1"])])
      "Recipe:b/1" "Recipe:a/1" "Fetch:u"
      (by unfold edgeRel; decide)
      (@Relation.TransGen.single String
        (edgeRel [("Fetch:u", ArtifactM.fetch "u"),
          ("Recipe:a/1", ArtifactM.recipe "a" "1" "v" "v" [.fetchDep "u" "f"]),
          ("Recipe:b/1", ArtifactM.recipe "b" "1" "v" "v" [.recipeDep "a" "1"])])
        "Recipe:a/1" "Fetch:u" (by unfold edgeRel; decide)))

/-- C2: when a ready id names a Recipe with some dependency already in
failed_artifacts_ids, the loop body adds the recipe's id to the failed
set, records the warning event, marks the id done in the graph, and does
not invoke build (the appended event is skippedDepFailed, never built or
buildFailed). -/
theorem c2_failed_dep_skips_build (artifacts : Registry)
    (buildOk : String → Bool → Bool) (override : Bool) (st : SchedState)
    (aid : String) (a : ArtifactM)
    (ha : alistLookup artifacts aid = some a)
    (hrec : isRecipeArtifact a = true)
    (hdep : ∃ d ∈ artifactDeps a,
      st.failed.contains (dependencyArtifactId d) = true) :
    processOne artifacts buildOk override st aid = some (skipState st aid) ∧
    skipState st aid =
      { yielded := st.yielded, doneIds := st.doneIds ++ [aid],
        failed := addToSet st.failed aid,
        trace := st.trace ++ [.skippedDepFailed aid] } := by
  refine ⟨?_, rfl⟩
  obtain ⟨d, hd, hdf⟩ := hdep
  have hfind : ((artifactDeps a).find?
      (fun d => st.failed.contains (dependencyArtifactId d))).isSome := by
    rw [List.find?_isSome]
    exact ⟨d, hd, hdf⟩
  unfold processOne
  rw [ha]
  simp only [hrec, if_true]
  cases hf : (artifactDeps a).find?
      (fun d => st.failed.contains (dependencyArtifactId d)) with
  | none => rw [hf] at hfind; simp at hfind
  | some d2 => rfl

/-- Witness for c2_failed_dep_skips_build: a recipe whose fetch
dependency id is already failed. -/
theorem c2_failed_dep_skips_build_witness :
    processOne
      [("Recipe:a/1", ArtifactM.recipe "a" "1" "v" "v" [.fetchDep "u" "f"])]
      (fun _ _ => true) false ⟨[], [], ["Fetch:u"], []⟩ "Recipe:a/1" =
      some (skipState ⟨[], [], ["Fetch:u"], []⟩ "Recipe:a/1") ∧
    skipState ⟨[], [], ["Fetch:u"], []⟩ "Recipe:a/1" =
      { yielded := [], doneIds := [] ++ ["Recipe:a/1"],
        failed := addToSet ["Fetch:u"] "Recipe:a/1",
        trace := [] ++ [.skippedDepFailed "Recipe:a/1"] } :=
  c2_failed_dep_skips_build
    [("Recipe:a/1", ArtifactM.recipe "a" "1" "v" "v" [.fetchDep "u" "f"])]
    (fun _ _ => true) false ⟨[], [], ["Fetch:u"], []⟩ "Recipe:a/1"
    (ArtifactM.recipe "a" "1" "v" "v" [.fetchDep "u" "f"])
    (by decide) (by decide) ⟨.fetchDep "u" "f", by decide, by decide⟩

/-- C10: build_all never reads num_jobs (its worker-queue code is
commented out) and dispatches strictly sequentially, so for every
registry, graph, build oracle and flag values, running with any num_jobs
produces exactly the same result — the same event trace, hence the same
sequence of build invocations, and the same failed set — as running with
num_jobs = 1. -/
theorem c10_num_jobs_irrelevant (artifacts : Registry) (t : TopoSorter)
    (buildOk : String → Bool → Bool) (override : Bool) (n : Nat)
    (h : 1 ≤ n) :
    buildAll artifacts t buildOk override n =
      buildAll artifacts t buildOk override 1 := rfl

/-- Witness for c10_num_jobs_irrelevant at num_jobs = 4. -/
theorem c10_num_jobs_irrelevant_witness :
    buildAll [("Fetch:u", ArtifactM.fetch "u")]
      (computeDependenciesGraph [("Fetch:u", ArtifactM.fetch "u")])
      (fun _ _ => true) false 4 =
    buildAll [("Fetch:u", ArtifactM.fetch "u")]
      (computeDependenciesGraph [("Fetch:u", ArtifactM.fetch "u")])
      (fun _ _ => true) false 1 :=
  c10_num_jobs_irrelevant [("Fetch:u", ArtifactM.fetch "u")]
    (computeDependenciesGraph [("Fetch:u", ArtifactM.fetch "u")])
    (fun _ _ => true) false 4 (by decide)

end Complott

